import Mathlib

/-!
Verification development for the `smartbuyreviews` repository.

The repository has two components:

* `scripts/update-reviews.js` — a Node maintenance script that scans review
  HTML pages, extracts metadata via regular-expression pattern matching, and
  rewrites a marker-delimited data block in the listing page and a
  marker-delimited section of the sitemap.
* a navigation-menu widget, present in two near-identical variants
  ("v3.1" and "v4.0"), which detects the active language, localizes review
  URLs, renders a menu (or a fallback menu on load failure) and switches
  languages.

Strings are modelled as `List Char`.  JavaScript regular-expression
operations used by the sources are embedded as explicit scanners with
leftmost-match semantics (`scanFirst` returns the first position at which a
local matcher succeeds, exactly as a regex engine tries successive start
positions).  `String.prototype.replace` is embedded including its `$`
substitution sequences.  `localeCompare` is embedded as lexicographic
character comparison, which coincides with its behaviour on the zero-padded
`YYYY-MM-DD` digit/dash date strings the script compares.
-/

namespace SmartBuy

set_option maxRecDepth 16384

abbrev Str := List Char

/-- JavaScript `\s` whitespace class (restricted to the ASCII whitespace
characters that can occur in the repository's data). -/
def isWs (c : Char) : Bool :=
  c = ' ' || c = '\t' || c = '\n' || c = '\r' || c = '\x0b' || c = '\x0c'

/-- Generic leftmost-match scanner: try the local matcher `f` at every
suffix, left to right, returning the first position where it succeeds
together with the matcher's result.  This is the search strategy of a
JavaScript regex engine: attempt a match at index 0, 1, 2, … . -/
def scanFirst {α : Type} (f : Str → Option α) : Str → Option (Nat × α)
  | [] =>
    match f [] with
    | some a => some (0, a)
    | none => none
  | c :: t =>
    match f (c :: t) with
    | some a => some (0, a)
    | none => (scanFirst f t).map (fun p => (p.1 + 1, p.2))

theorem scanFirst_eq_some {α : Type} {f : Str → Option α} :
    ∀ {s : Str} {i : Nat} {a : α}, scanFirst f s = some (i, a) →
      f (s.drop i) = some a ∧ ∀ j, j < i → f (s.drop j) = none := by
  intro s
  induction s with
  | nil =>
    intro i a h
    rw [scanFirst] at h
    cases hf : f [] with
    | some b =>
      rw [hf] at h
      simp at h
      exact ⟨by simp [hf, h.1, h.2], by omega⟩
    | none => rw [hf] at h; simp at h
  | cons c t ih =>
    intro i a h
    rw [scanFirst] at h
    cases hf : f (c :: t) with
    | some b =>
      rw [hf] at h
      simp at h
      refine ⟨by simp [← h.1, hf, h.2], by intro j hj; omega⟩
    | none =>
      rw [hf] at h
      simp only [Option.map_eq_some'] at h
      rcases h with ⟨p, hp, hpe⟩
      cases p with
      | mk p1 p2 =>
        simp at hpe
        have hrec := ih (i := p1) (a := p2) hp
        constructor
        · rw [← hpe.1, ← hpe.2]
          simpa using hrec.1
        · intro j hj
          cases j with
          | zero => simpa using hf
          | succ j' =>
            have hj' : f (t.drop j') = none := hrec.2 j' (by omega)
            simpa using hj'

theorem scanFirst_eq_none {α : Type} {f : Str → Option α} :
    ∀ {s : Str}, scanFirst f s = none → ∀ j, f (s.drop j) = none := by
  intro s
  induction s with
  | nil =>
    intro h j
    rw [scanFirst] at h
    cases hf : f [] with
    | some b => rw [hf] at h; simp at h
    | none => simpa using hf
  | cons c t ih =>
    intro h j
    rw [scanFirst] at h
    cases hf : f (c :: t) with
    | some b => rw [hf] at h; simp at h
    | none =>
      rw [hf] at h
      simp at h
      cases j with
      | zero => simpa using hf
      | succ j' => simpa using ih h j'

theorem scanFirst_complete {α : Type} {f : Str → Option α} :
    ∀ {s : Str} {i : Nat} {a : α}, f (s.drop i) = some a →
      (∀ j, j < i → f (s.drop j) = none) → scanFirst f s = some (i, a) := by
  intro s
  induction s with
  | nil =>
    intro i a hhit hmin
    have hi : i = 0 := by
      by_contra hne
      have h0 := hmin 0 (by omega)
      simp at h0
      simp [h0] at hhit
    subst hi
    simp at hhit
    rw [scanFirst, hhit]
  | cons c t ih =>
    intro i a hhit hmin
    cases i with
    | zero =>
      simp at hhit
      rw [scanFirst, hhit]
    | succ i' =>
      have h0 : f (c :: t) = none := by simpa using hmin 0 (by omega)
      have hrec := ih (i := i') (a := a) (by simpa using hhit)
        (fun j hj => by simpa using hmin (j + 1) (by omega))
      rw [scanFirst, h0, hrec]
      rfl

/-- First index at which the literal `pat` occurs in `s`
(JavaScript `String.prototype.indexOf`). -/
def hereLit (pat : Str) (s : Str) : Option Unit :=
  if pat.isPrefixOf s then some () else none

def firstIdx (pat s : Str) : Option Nat :=
  (scanFirst (hereLit pat) s).map (·.1)

theorem firstIdx_eq_some {pat s : Str} {i : Nat} (h : firstIdx pat s = some i) :
    pat <+: s.drop i ∧ ∀ j, j < i → ¬ pat <+: s.drop j := by
  unfold firstIdx at h
  rcases Option.map_eq_some'.1 h with ⟨q, hs, hq⟩
  have hq1 : q = (i, ()) := by
    cases q with
    | mk q1 q2 => cases q2; simp at hq; simp [hq]
  subst hq1
  have hsound := scanFirst_eq_some hs
  constructor
  · have h1 := hsound.1
    unfold hereLit at h1
    by_cases hp : pat.isPrefixOf (s.drop i)
    · simpa using hp
    · simp [hp] at h1
  · intro j hj hpre
    have h2 := hsound.2 j hj
    unfold hereLit at h2
    simp [(List.isPrefixOf_iff_prefix).2 hpre] at h2

theorem firstIdx_eq_none {pat s : Str} (h : firstIdx pat s = none) :
    ∀ j, ¬ pat <+: s.drop j := by
  unfold firstIdx at h
  have hs : scanFirst (hereLit pat) s = none := by
    cases hx : scanFirst (hereLit pat) s
    · rfl
    · simp [hx] at h
  intro j hpre
  have := scanFirst_eq_none hs j
  unfold hereLit at this
  simp [(List.isPrefixOf_iff_prefix).2 hpre] at this

theorem firstIdx_complete {pat s : Str} {i : Nat} (hhit : pat <+: s.drop i)
    (hmin : ∀ j, j < i → ¬ pat <+: s.drop j) : firstIdx pat s = some i := by
  unfold firstIdx
  have : scanFirst (hereLit pat) s = some (i, ()) := by
    apply scanFirst_complete
    · unfold hereLit; simp [(List.isPrefixOf_iff_prefix).2 hhit]
    · intro j hj
      unfold hereLit
      have := hmin j hj
      by_cases hp : pat.isPrefixOf (s.drop j) <;> simp [hp]
      · exact this (by simpa using hp)
  simp [this]

/-- Either `p` fits inside `u`, or `p` runs past the end of `u`. -/
theorem prefix_append_cases {p u v : Str} (h : p <+: u ++ v) :
    p <+: u ∨ u <+: p :=
  List.prefix_or_prefix_of_prefix h (List.prefix_append u v)

theorem prefix_append_of_le {p u v : Str} (hlen : p.length ≤ u.length)
    (h : p <+: u ++ v) : p <+: u := by
  rcases prefix_append_cases h with h1 | h1
  · exact h1
  · have := h1.eq_of_length_le hlen
    subst this
    exact List.prefix_refl _

theorem prefix_append_extend {p u : Str} (h : p <+: u) (v : Str) : p <+: u ++ v :=
  h.trans (List.prefix_append u v)

/-! ### Basic string operations used by the sources -/

/-- `String.prototype.trim`. -/
def trimStr (s : Str) : Str := ((s.dropWhile isWs).reverse.dropWhile isWs).reverse

def collapseWsAux : Bool → Str → Str
  | _, [] => []
  | prevWs, c :: t =>
    if isWs c then
      if prevWs then collapseWsAux true t else ' ' :: collapseWsAux true t
    else c :: collapseWsAux false t

/-- `.replace(/\s+/g, ' ')`: every maximal whitespace run becomes one space. -/
def collapseWs (s : Str) : Str := collapseWsAux false s

/-- Decimal rendering of a number interpolated into a template literal. -/
def natToStr (n : Nat) : Str := Nat.toDigits 10 n

/-- Case-insensitive prefix test (the `/i` regex flag applied to a literal):
the pattern is given in lowercase and compared against lowercased text. -/
def ciPrefixOf : Str → Str → Bool
  | [], _ => true
  | _ :: _, [] => false
  | a :: as, b :: bs => (a.toLower = b.toLower : Bool) && ciPrefixOf as bs

/-- Lexicographic strict order on strings; `localeCompare` coincides with it
on the zero-padded digit/dash `YYYY-MM-DD` date strings the script sorts. -/
def strLt : Str → Str → Bool
  | [], [] => false
  | [], _ :: _ => true
  | _ :: _, [] => false
  | a :: as, b :: bs => if a < b then true else if b < a then false else strLt as bs

/-- `String.prototype.replace` substitution-string processing: `$$`, `$&`,
a backtick or quote dollar escape, and `$n` for existing capture groups;
anything else is literal (JavaScript leaves `$n` untouched when group `n`
does not exist). -/
def substDollar (bef mat aft : Str) (groups : List Str) : Str → Str
  | [] => []
  | c :: t =>
    if c = '$' then
      match t with
      | [] => ['$']
      | d :: t' =>
        if d = '$' then '$' :: substDollar bef mat aft groups t'
        else if d = '&' then mat ++ substDollar bef mat aft groups t'
        else if d = Char.ofNat 96 then bef ++ substDollar bef mat aft groups t'
        else if d = Char.ofNat 39 then aft ++ substDollar bef mat aft groups t'
        else if '1' ≤ d ∧ d ≤ '9' ∧ d.toNat - '0'.toNat ≤ groups.length then
          (groups.getD (d.toNat - '0'.toNat - 1) []) ++ substDollar bef mat aft groups t'
        else '$' :: d :: substDollar bef mat aft groups t'
    else c :: substDollar bef mat aft groups t

/-- Replace the match at position `i` of length `len` in `s` by the
substitution template `tpl` (with capture groups `groups`). -/
def replaceAt (s : Str) (i len : Nat) (tpl : Str) (groups : List Str) : Str :=
  s.take i ++ substDollar (s.take i) ((s.drop i).take len) (s.drop (i + len)) groups tpl
    ++ s.drop (i + len)

theorem substDollar_no_dollar {bef mat aft : Str} {groups : List Str} :
    ∀ {t : Str}, '$' ∉ t → substDollar bef mat aft groups t = t := by
  intro t
  induction t with
  | nil => intro; rfl
  | cons c t ih =>
    intro h
    have hc : ¬ c = '$' := by intro he; exact h (by simp [he])
    have ht : '$' ∉ t := fun hm => h (List.mem_cons_of_mem _ hm)
    rw [substDollar.eq_def]
    simp only [if_neg hc]
    rw [ih ht]

/-! ### Review metadata extraction (`extractMeta`) -/

structure Review where
  title : Str
  url : Str
  category : Str
  excerpt : Str
  image : Str
  date : Str
deriving DecidableEq

/-- Local matcher for `/<title>([^<]+)<\/title>/is`. -/
def titleHere (s : Str) : Option Str :=
  if ciPrefixOf "<title>".data s then
    let rest := s.drop 7
    let run := rest.takeWhile (fun c => c ≠ '<')
    if 0 < run.length ∧ ciPrefixOf "</title>".data (rest.drop run.length) then some run
    else none
  else none

def findTitle (html : Str) : Option Str := (scanFirst titleHere html).map (·.2)

/-- Local matcher for the anchored tail of
`/\s*Review\s*-\s*Smart Buy Reviews UK 2026\s*$/i`; each `\s*` before a
non-whitespace literal is forced to the maximal whitespace run. -/
def titleSuffixHere (s : Str) : Option Unit :=
  let s1 := s.drop (s.takeWhile isWs).length
  if ciPrefixOf "review".data s1 then
    let s2 := s1.drop 6
    let s3 := s2.drop (s2.takeWhile isWs).length
    match s3 with
    | [] => none
    | c :: s4 =>
      if c = '-' then
        let s5 := s4.drop (s4.takeWhile isWs).length
        if ciPrefixOf "smart buy reviews uk 2026".data s5 then
          if (s5.drop 25).dropWhile isWs = [] then some () else none
        else none
      else none
  else none

def stripTitleSuffix (t : Str) : Str :=
  match scanFirst titleSuffixHere t with
  | none => t
  | some (p, _) => t.take p

/-- Local matcher for `/class="badge[^"]*"[^>]*>\s*([^<]+?)\s*<\/span>/i`;
returns the trimmed capture (the code applies `.trim()` to the group, and
the lazily captured group trims to the same string as the full inter-tag
run of non-`<` characters). -/
def catHere (s : Str) : Option Str :=
  if ciPrefixOf "class=\"badge".data s then
    let r1 := s.drop 12
    let r2 := r1.drop (r1.takeWhile (fun c => c ≠ '"')).length
    match r2 with
    | [] => none
    | _ :: r3 =>
      let r4 := r3.drop (r3.takeWhile (fun c => c ≠ '>')).length
      match r4 with
      | [] => none
      | _ :: r5 =>
        let run := r5.takeWhile (fun c => c ≠ '<')
        if 0 < run.length ∧ ciPrefixOf "</span>".data (r5.drop run.length) then
          some (trimStr run)
        else none
  else none

/-- Local matcher for
`/src="(https:\/\/smartbuyreviews-instructions-2026\.s3[^"]+)"/i`;
the capture keeps the original (non-lowercased) text. -/
def imgHere (s : Str) : Option Str :=
  if ciPrefixOf "src=\"".data s then
    let r1 := s.drop 5
    if ciPrefixOf "https://smartbuyreviews-instructions-2026.s3".data r1 then
      let r2 := r1.drop 44
      let run := r2.takeWhile (fun c => c ≠ '"')
      if 0 < run.length ∧ r2.drop run.length ≠ [] then some (r1.take 44 ++ run)
      else none
    else none
  else none

/-- Local matcher for `/<meta\s+name="description"\s+content="([^"]+)"/i`. -/
def descHere (s : Str) : Option Str :=
  if ciPrefixOf "<meta".data s then
    let r1 := s.drop 5
    let k1 := (r1.takeWhile isWs).length
    if 0 < k1 ∧ ciPrefixOf "name=\"description\"".data (r1.drop k1) then
      let r2 := r1.drop (k1 + 18)
      let k2 := (r2.takeWhile isWs).length
      if 0 < k2 ∧ ciPrefixOf "content=\"".data (r2.drop k2) then
        let r3 := r2.drop (k2 + 9)
        let run := r3.takeWhile (fun c => c ≠ '"')
        if 0 < run.length ∧ r3.drop run.length ≠ [] then some run else none
      else none
    else none
  else none

def findDesc (html : Str) : Option Str := (scanFirst descHere html).map (·.2)

def stripHonestFind : Str → Nat → Option Nat
  | [], _ => none
  | c :: t, i =>
    if c = '\n' then none else if c = '.' then some i else stripHonestFind t (i + 1)

/-- `.replace(/^Honest review of .+?\.\s*/i, '')`: anchored at the start;
the lazy `.+?` consumes at least one non-newline character, the literal dot
is the first dot thereafter, and the trailing `\s*` is maximal. -/
def stripHonest (e : Str) : Str :=
  if ciPrefixOf "honest review of ".data e then
    let r := e.drop 17
    match r with
    | [] => e
    | c0 :: rt =>
      if c0 = '\n' then e
      else
        match stripHonestFind rt 1 with
        | none => e
        | some j =>
          let rest := r.drop (j + 1)
          rest.drop (rest.takeWhile isWs).length
  else e

/-- The excerpt computation applied to the captured meta-description. -/
def excerptOfDesc (capture : Str) : Str :=
  let e0 := trimStr (collapseWs capture)
  let e1 := stripHonest e0
  let e2 := if e1 = [] then e0 else e1
  if 120 < e2.length then e2.take 117 ++ "...".data else e2

def findExcerpt (html : Str) : Str :=
  match findDesc html with
  | none => []
  | some cap => excerptOfDesc cap

/-- `git log -1` output processing: trimmed; empty output falls back to
today; otherwise everything before the first `T` of the ISO timestamp. -/
def dateOf (gitOut : Option Str) (today : Str) : Str :=
  match gitOut with
  | none => today
  | some g =>
    let t := trimStr g
    if t = [] then today else t.takeWhile (fun c => c ≠ 'T')

/-- `extractMeta` for one file: `gitOut` is the output of the version
control date lookup (`none` when the command failed). -/
def extractMeta (fileName html : Str) (gitOut : Option Str) (today : Str) : Option Review :=
  match findTitle html with
  | none => none
  | some raw =>
    let t := trimStr (stripTitleSuffix (collapseWs raw))
    if t = [] then none
    else some {
      title := t
      url := "/regions/en/reviews/".data ++ fileName
      category := match scanFirst catHere html with
        | none => "General".data
        | some p => p.2
      excerpt := findExcerpt html
      image := match scanFirst imgHere html with
        | none => []
        | some p => p.2
      date := dateOf gitOut today }

/-! ### The listing-page data block rewrite (`updateIndex`) -/

def hexDigit (n : Nat) : Char :=
  if n < 10 then Char.ofNat ('0'.toNat + n) else Char.ofNat ('a'.toNat + n - 10)

def jsonEscChar (c : Char) : Str :=
  if c = '"' then ['\\', '"']
  else if c = '\\' then ['\\', '\\']
  else if c = '\n' then ['\\', 'n']
  else if c = '\r' then ['\\', 'r']
  else if c = '\t' then ['\\', 't']
  else if c = '\x08' then ['\\', 'b']
  else if c = '\x0c' then ['\\', 'f']
  else if c.toNat < 32 then ['\\', 'u', '0', '0', hexDigit (c.toNat / 16), hexDigit (c.toNat % 16)]
  else [c]

/-- `JSON.stringify` on a string value. -/
def jsonStringify (s : Str) : Str :=
  '"' :: s.foldr (fun c acc => jsonEscChar c ++ acc) ['"']

def joinSep (sep : Str) : List Str → Str
  | [] => []
  | [x] => x
  | x :: y :: t => x ++ sep ++ joinSep sep (y :: t)

/-- One serialized record of the `reviewsData` block (`\x7b`/`\x7d` denote
the braces of the JavaScript object literal). -/
def reviewRecord (r : Review) : Str :=
  "      \x7b\n        title: ".data ++ jsonStringify r.title ++
  ",\n        url: ".data ++ jsonStringify r.url ++
  ",\n        category: ".data ++ jsonStringify r.category ++
  ",\n        excerpt: ".data ++ jsonStringify r.excerpt ++
  ",\n        image: ".data ++ jsonStringify r.image ++
  ",\n        date: ".data ++ jsonStringify r.date ++
  "\n      \x7d".data

def formattedRecords (rs : List Review) : Str := joinSep ",\n".data (rs.map reviewRecord)

def startTok : Str := "const reviewsData = [".data
def endTokLit : Str := "// END REVIEWS DATA".data
def endTokFull : Str := "]; // END REVIEWS DATA".data

def blockBody (rs : List Review) : Str := '\n' :: (formattedRecords rs ++ "\n    ".data)

/-- The freshly serialized replacement block. -/
def newBlock (rs : List Review) : Str := startTok ++ blockBody rs ++ endTokFull

/-- Local matcher for the terminator `];\s*\/\/ END REVIEWS DATA` of the
lazy marker regex: `\s*` is forced to the maximal whitespace run because
the following literal starts with a non-whitespace character. -/
def endMatchLen (s : Str) : Option Nat :=
  if "];".data.isPrefixOf s then
    if endTokLit.isPrefixOf ((s.drop 2).drop ((s.drop 2).takeWhile isWs).length) then
      some (2 + ((s.drop 2).takeWhile isWs).length + endTokLit.length)
    else none
  else none

def findEnd (s : Str) : Option (Nat × Nat) := scanFirst endMatchLen s

/-- Local matcher for
`/const reviewsData = \[[\s\S]*?\];\s*\/\/ END REVIEWS DATA/`:
the literal head, then the lazy gap ends at the first position where the
terminator matches.  Returns the total match length. -/
def imHere (s : Str) : Option Nat :=
  if startTok.isPrefixOf s then
    (findEnd (s.drop startTok.length)).map (fun p => startTok.length + p.1 + p.2)
  else none

def matchIM (s : Str) : Option (Nat × Nat) := scanFirst imHere s

/-- `updateIndex` without the file system: `none` is the fatal
missing-marker branch (diagnostic + `process.exit(1)`); otherwise the new
file content, whether a write happened, and the log line. -/
def updateIndexContent (rs : List Review) (content : Str) : Option (Str × Bool × Str) :=
  match matchIM content with
  | none => none
  | some (i, len) =>
    if replaceAt content i len (newBlock rs) [] = content then
      some (replaceAt content i len (newBlock rs) [], false,
        "index.html already up to date".data)
    else
      some (replaceAt content i len (newBlock rs) [], true,
        "Updated index.html with ".data ++ natToStr rs.length ++ " reviews".data)

/-! ### The sitemap rewrite (`updateSitemap`) -/

def smStart : Str := "<!-- Reviews - AUTO-GENERATED SECTION START -->".data
def smEnd : Str := "<!-- Reviews - AUTO-GENERATED SECTION END -->".data
def siteUrl : Str := "https://smartbuyreviews.co.uk".data

def sitemapEntry (r : Review) : Str :=
  "  <url>\n    <loc>".data ++ siteUrl ++ r.url ++
  "</loc>\n    <lastmod>".data ++ r.date ++
  "</lastmod>\n    <changefreq>monthly</changefreq>\n    <priority>0.7</priority>\n  </url>".data

def sitemapEntries (rs : List Review) : Str := joinSep "\n".data (rs.map sitemapEntry)

def locLit : Str := "<loc>https://smartbuyreviews.co.uk/regions/en/reviews/</loc>".data
def lmOpen : Str := "<lastmod>".data
def lmClose : Str := "</lastmod>".data

/-- Tail of the `lastmod` patch match after the `<loc>` literal: maximal
whitespace run, `<lastmod>`, a maximal nonempty run of non-`<` characters,
then `</lastmod>`.  Returns (length of first captured group, middle run
length). -/
def patchTail (r1 : Str) : Option (Nat × Nat) :=
  if lmOpen.isPrefixOf (r1.drop (r1.takeWhile isWs).length) then
    if 0 < ((r1.drop ((r1.takeWhile isWs).length + lmOpen.length)).takeWhile (fun c => c ≠ '<')).length
        ∧ lmClose.isPrefixOf ((r1.drop ((r1.takeWhile isWs).length + lmOpen.length)).drop
            ((r1.drop ((r1.takeWhile isWs).length + lmOpen.length)).takeWhile (fun c => c ≠ '<')).length) then
      some (locLit.length + (r1.takeWhile isWs).length + lmOpen.length,
        ((r1.drop ((r1.takeWhile isWs).length + lmOpen.length)).takeWhile (fun c => c ≠ '<')).length)
    else none
  else none

/-- Local matcher for the `lastmod` patch regex
`(<loc>…\/regions\/en\/reviews\/<\/loc>\s*<lastmod>)[^<]+(<\/lastmod>)`:
greedy `\s*` and `[^<]+` are forced to maximal runs because the following
literals start with characters the classes exclude.  Returns the length of
the first captured group and of the `[^<]+` middle. -/
def patchHere (s : Str) : Option (Nat × Nat) :=
  if locLit.isPrefixOf s then
    patchTail (s.drop locLit.length)
  else none

/-- `.replace(patchRegex, `$1${today}$2`)` — replace the first match,
processing the substitution template (groups `$1`, `$2`). -/
def patchLastmod (today : Str) (s : Str) : Str :=
  match scanFirst patchHere s with
  | none => s
  | some (p, g1, m) =>
    replaceAt s p (g1 + m + lmClose.length) ("$1".data ++ today ++ "$2".data)
      [(s.drop p).take g1, (s.drop (p + g1 + m)).take lmClose.length]

/-- The sitemap text after splicing the fresh entries between the markers
(before the `lastmod` patch): everything up to the end of the start marker,
a newline, the entries, `"\n  "`, then everything from the end marker on. -/
def sitemapUpdated (rs : List Review) (content : Str) (s e : Nat) : Str :=
  content.take (s + smStart.length) ++ ('\n' :: (sitemapEntries rs ++ "\n  ".data))
    ++ content.drop e

/-- `updateSitemap` without the file system; `none` is the fatal
missing-marker branch. -/
def updateSitemapContent (rs : List Review) (today : Str) (content : Str) :
    Option (Str × Bool × Str) :=
  match firstIdx smStart content, firstIdx smEnd content with
  | some s, some e =>
    if patchLastmod today (sitemapUpdated rs content s e) = content then
      some (patchLastmod today (sitemapUpdated rs content s e), false,
        "sitemap.xml already up to date".data)
    else
      some (patchLastmod today (sitemapUpdated rs content s e), true,
        "Updated sitemap.xml with ".data ++ natToStr rs.length ++ " review URLs".data)
  | _, _ => none

/-! ### The whole script run (`main`) -/

def strHtml : Str := ".html".data
def strIndexHtml : Str := "index.html".data

def isReviewFile (name : Str) : Bool :=
  if name = strIndexHtml then false else strHtml.isSuffixOf name

def insertDesc (r : Review) : List Review → List Review
  | [] => [r]
  | h :: t => if strLt r.date h.date then h :: insertDesc r t else r :: h :: t

/-- Stable descending sort by date, the unique result of JavaScript's
stable `Array.prototype.sort` under `(a, b) => b.date.localeCompare(a.date)`. -/
def sortDesc (l : List Review) : List Review := l.foldr insertDesc []

structure SyncWorld where
  files : List (Str × Str)
  gitOut : Str → Option Str
  today : Str
  indexContent : Str
  sitemapContent : Str

structure SyncResult where
  exitCode : Nat
  indexOut : Str
  sitemapOut : Str
  indexWritten : Bool
  sitemapWritten : Bool
  stdout : List Str
  stderr : List Str
deriving DecidableEq

def reviewFilesOf (w : SyncWorld) : List (Str × Str) :=
  w.files.filter (fun f => isReviewFile f.1)

def extractedReviews (w : SyncWorld) : List Review :=
  sortDesc ((reviewFilesOf w).filterMap
    (fun f => extractMeta f.1 f.2 (w.gitOut f.1) w.today))

/-- One run of the script.  `indexOut`/`sitemapOut` are the final file
contents; a fatal missing-marker condition in `updateIndex` aborts before
the sitemap step, while a fatal condition in `updateSitemap` happens after
the listing page was already processed (and possibly written). -/
def runSync (w : SyncWorld) : SyncResult :=
  let revFiles := reviewFilesOf w
  let reviews := extractedReviews w
  let msgs := ["Found ".data ++ natToStr revFiles.length ++ " review files".data,
               "Extracted metadata for ".data ++ natToStr reviews.length ++ " reviews".data]
  match updateIndexContent reviews w.indexContent with
  | none =>
    { exitCode := 1, indexOut := w.indexContent, sitemapOut := w.sitemapContent,
      indexWritten := false, sitemapWritten := false, stdout := msgs,
      stderr := ["ERROR: Could not find reviewsData marker in index.html".data] }
  | some (newIdx, idxCh, idxMsg) =>
    match updateSitemapContent reviews w.today w.sitemapContent with
    | none =>
      { exitCode := 1, indexOut := newIdx, sitemapOut := w.sitemapContent,
        indexWritten := idxCh, sitemapWritten := false, stdout := msgs ++ [idxMsg],
        stderr := ["ERROR: Could not find sitemap markers".data] }
    | some (newSm, smCh, smMsg) =>
      { exitCode := 0, indexOut := newIdx, sitemapOut := newSm,
        indexWritten := idxCh, sitemapWritten := smCh,
        stdout := msgs ++ [idxMsg, smMsg,
          if idxCh || smCh then "Files updated successfully".data
          else "No changes needed".data],
        stderr := [] }

/-! ### Navigation menu widget — shared data contract and primitives -/

structure MenuItem where
  label : Str
  url : Str
deriving DecidableEq

structure LangEntry where
  code : Str
  label : Str
  flag : Str
deriving DecidableEq

structure MenuData where
  reviews : List MenuItem
  languages : List LangEntry
deriving DecidableEq

/-- Result of the `fetch(...).then(r => r.json())` chain: any network
error, non-success body or JSON parse failure rejects into the `catch`. -/
inductive FetchResult where
  | ok (data : MenuData)
  | failure
deriving DecidableEq

def isLowerAZ (c : Char) : Bool := 'a' ≤ c && c ≤ 'z'

/-- Local matcher for `/\/regions\/([a-z]{2})\//` (match length 12,
capture = the two-letter code). -/
def regionHere (s : Str) : Option Str :=
  if "/regions/".data.isPrefixOf s then
    match s.drop 9 with
    | c1 :: c2 :: c3 :: _ =>
      if c3 = '/' then
        if isLowerAZ c1 && isLowerAZ c2 then some [c1, c2] else none
      else none
    | _ => none
  else none

def regionLen : Nat := 12

def strUpper (s : Str) : Str := s.map Char.toUpper

def concatAll (l : List Str) : Str := l.foldr (· ++ ·) []

def findLang (currentLang : Str) (languages : List LangEntry) : LangEntry :=
  match languages.find? (fun l => l.code = currentLang) with
  | some l => l
  | none => languages.headD ⟨[], [], []⟩

inductive SwitchOutcome where
  | navigate (path : Str)
  | rerenderWith (lang : Str)
deriving DecidableEq

structure SwitchResult where
  storedPref : Str
  outcome : SwitchOutcome
deriving DecidableEq

/-- All `href="…"` attribute values of a rendered HTML string, in order. -/
def allHrefs : Str → List Str
  | [] => []
  | c :: t =>
    match (if "href=\"".data.isPrefixOf (c :: t) then
             some (((c :: t).drop 6).takeWhile (fun x => x ≠ '"'))
           else none) with
    | some h => h :: allHrefs t
    | none => allHrefs t

def containsSub (pat s : Str) : Bool := (firstIdx pat s).isSome

/-! ### Navigation menu widget, v3.1 (flat-menu theme) -/

namespace V31

def detectLanguage (pathname : Str) (stored : Option Str) : Str :=
  match scanFirst regionHere pathname with
  | some (_, code) => code
  | none =>
    match stored with
    | some s => if s = [] then "en".data else s
    | none => "en".data

/-- `url.replace(/\/regions\/[a-z]{2}\//, `/regions/${this.currentLang}/`)`
— first match only, with `$`-substitution of the template. -/
def getLocalizedUrl (currentLang url : Str) : Str :=
  match scanFirst regionHere url with
  | none => url
  | some (i, _) =>
    replaceAt url i regionLen ("/regions/".data ++ currentLang ++ "/".data)
      [(url.drop (i + 9)).take 2]

def switchLanguage (currentPath newLang : Str) : SwitchResult :=
  { storedPref := newLang
    outcome :=
      if containsSub "/regions/".data currentPath then
        .navigate (match scanFirst regionHere currentPath with
          | none => currentPath
          | some (i, _) =>
            replaceAt currentPath i regionLen
              ("/regions/".data ++ newLang ++ "/".data)
              [(currentPath.drop (i + 9)).take 2])
      else .rerenderWith newLang }

def buildFallbackHtml : Str :=
  ("\n      <ul class=\"menu-list flex flex-wrap items-center gap-4 lg:gap-6\">\n        <li class=\"menu-item\"><a href=\"/\" class=\"menu-link text-white hover:text-slate-200\">Home</a></li>\n        <li class=\"menu-item\"><a href=\"/about.html\" class=\"menu-link text-white hover:text-slate-200\">About</a></li>\n        <li class=\"menu-item\"><a href=\"/privacy-policy.html\" class=\"menu-link text-white hover:text-slate-200\">Privacy Policy</a></li>\n      </ul>\n    ").data

def buildLanguageDropdown (currentLang : Str) (languages : List LangEntry) : Str :=
  let cur := findLang currentLang languages
  ("<li class=\"menu-item menu-item--with-children relative ml-4\">\n      <button class=\"menu-link menu-link--parent text-white hover:text-slate-200 transition-colors flex items-center gap-1 border border-white/20 rounded px-3 py-1\">\n        <span class=\"text-sm\">").data
  ++ cur.flag ++ " ".data ++ strUpper cur.code ++
  ("</span>\n        <svg class=\"w-4 h-4\" fill=\"none\" stroke=\"currentColor\" viewBox=\"0 0 24 24\"><path stroke-linecap=\"round\" stroke-linejoin=\"round\" stroke-width=\"2\" d=\"M19 9l-7 7-7-7\"></path></svg>\n      </button>\n      <ul class=\"menu-submenu absolute top-full right-0 mt-2 bg-slate-800 rounded-lg shadow-xl py-2 min-w-[140px] hidden z-50\">").data
  ++ concatAll (languages.map (fun lang =>
      ("<li class=\"menu-submenu-item\">\n        <a href=\"#\" class=\"menu-submenu-link block px-4 py-2 text-slate-200 hover:bg-slate-700 hover:text-white transition-colors").data
      ++ (if lang.code = currentLang then " bg-slate-700".data else [])
      ++ ("\" data-lang=\"").data ++ lang.code ++ ("\">").data ++ lang.flag ++ " ".data
      ++ lang.label ++ ("</a>\n      </li>").data))
  ++ ("</ul></li>").data

def buildMenuHtml (currentLang : Str) (d : MenuData) : Str :=
  ("<ul class=\"menu-list flex flex-wrap items-center gap-4 lg:gap-6\">").data
  ++ ("<li class=\"menu-item\"><a href=\"/\" class=\"menu-link text-white hover:text-slate-200 transition-colors\">Home</a></li>").data
  ++ (if 0 < d.reviews.length then
      ("<li class=\"menu-item menu-item--with-children relative\">\n        <button class=\"menu-link menu-link--parent text-white hover:text-slate-200 transition-colors flex items-center gap-1\">\n          Reviews\n          <svg class=\"w-4 h-4\" fill=\"none\" stroke=\"currentColor\" viewBox=\"0 0 24 24\"><path stroke-linecap=\"round\" stroke-linejoin=\"round\" stroke-width=\"2\" d=\"M19 9l-7 7-7-7\"></path></svg>\n        </button>\n        <ul class=\"menu-submenu absolute top-full left-0 mt-2 bg-slate-800 rounded-lg shadow-xl py-2 min-w-[250px] hidden z-50\">").data
      ++ concatAll (d.reviews.map (fun review =>
          ("<li class=\"menu-submenu-item\">\n          <a href=\"").data
          ++ getLocalizedUrl currentLang review.url
          ++ ("\" class=\"menu-submenu-link block px-4 py-2 text-slate-200 hover:bg-slate-700 hover:text-white transition-colors\">").data
          ++ review.label ++ ("</a>\n        </li>").data))
      ++ ("</ul></li>").data
    else [])
  ++ ("<li class=\"menu-item\"><a href=\"/about.html\" class=\"menu-link text-white hover:text-slate-200 transition-colors\">About</a></li>").data
  ++ ("<li class=\"menu-item\"><a href=\"/privacy-policy.html\" class=\"menu-link text-white hover:text-slate-200 transition-colors\">Privacy Policy</a></li>").data
  ++ (if 1 < d.languages.length then buildLanguageDropdown currentLang d.languages else [])
  ++ ("</ul>").data

/-- What `loadMenuData` renders into the container: the full menu on a
successful fetch, the fallback menu when the promise chain rejects. -/
def handleLoad (currentLang : Str) (fetch : FetchResult) : Str :=
  match fetch with
  | .failure => buildFallbackHtml
  | .ok d => buildMenuHtml currentLang d

end V31

/-! ### Navigation menu widget, v4.0 (clean-minimal theme) -/

namespace V40

def detectLanguage (pathname : Str) (stored : Option Str) : Str :=
  match scanFirst regionHere pathname with
  | some (_, code) => code
  | none =>
    match stored with
    | some s => if s = [] then "en".data else s
    | none => "en".data

def getLocalizedUrl (currentLang url : Str) : Str :=
  match scanFirst regionHere url with
  | none => url
  | some (i, _) =>
    replaceAt url i regionLen ("/regions/".data ++ currentLang ++ "/".data)
      [(url.drop (i + 9)).take 2]

def switchLanguage (currentPath newLang : Str) : SwitchResult :=
  { storedPref := newLang
    outcome :=
      if containsSub "/regions/".data currentPath then
        .navigate (match scanFirst regionHere currentPath with
          | none => currentPath
          | some (i, _) =>
            replaceAt currentPath i regionLen
              ("/regions/".data ++ newLang ++ "/".data)
              [(currentPath.drop (i + 9)).take 2])
      else .rerenderWith newLang }

def getCountryFlag (langCode : Str) : Str :=
  if langCode = "en".data then "🇬🇧".data
  else if langCode = "de".data then "🇩🇪".data
  else if langCode = "es".data then "🇪🇸".data
  else if langCode = "fr".data then "🇫🇷".data
  else if langCode = "it".data then "🇮🇹".data
  else if langCode = "nl".data then "🇳🇱".data
  else if langCode = "pt".data then "🇵🇹".data
  else "🌐".data

def buildFallbackHtml : Str :=
  ("\n      <nav class=\"flex items-center gap-6\">\n        <a href=\"/\" class=\"text-gray-600 hover:text-gray-900 text-sm font-medium no-underline\">Home</a>\n        <a href=\"/about.html\" class=\"text-gray-600 hover:text-gray-900 text-sm font-medium no-underline\">About</a>\n      </nav>\n    ").data

def buildLanguageDropdown (currentLang : Str) (languages : List LangEntry) : Str :=
  let cur := findLang currentLang languages
  ("<div class=\"relative group ml-2\">\n      <button class=\"text-gray-500 hover:text-gray-700 text-sm font-medium transition-colors flex items-center gap-1 px-2 py-1 rounded border border-gray-200 hover:border-gray-300\">\n        <span>").data
  ++ getCountryFlag cur.code ++
  ("</span>\n        <svg class=\"w-3 h-3\" fill=\"none\" stroke=\"currentColor\" viewBox=\"0 0 24 24\"><path stroke-linecap=\"round\" stroke-linejoin=\"round\" stroke-width=\"2\" d=\"M19 9l-7 7-7-7\"></path></svg>\n      </button>\n      <div class=\"menu-dropdown absolute top-full right-0 pt-2 hidden z-50\">\n        <div class=\"bg-white rounded-xl shadow-lg border border-gray-100 py-2 min-w-[140px]\">").data
  ++ concatAll (languages.map (fun lang =>
      ("<a href=\"#\" class=\"block px-4 py-2 text-gray-600 hover:bg-gray-50 hover:text-gray-900 text-sm no-underline transition-colors").data
      ++ (if lang.code = currentLang then " bg-gray-50 font-medium".data else [])
      ++ ("\" data-lang=\"").data ++ lang.code ++ ("\">").data
      ++ getCountryFlag lang.code ++ " ".data ++ lang.label ++ ("</a>").data))
  ++ ("</div></div></div>").data

def buildMenuHtml (currentLang : Str) (d : MenuData) : Str :=
  ("<nav class=\"flex items-center gap-6\">").data
  ++ ("<a href=\"/\" class=\"text-gray-600 hover:text-gray-900 text-sm font-medium transition-colors no-underline\">Home</a>").data
  ++ (if 0 < d.reviews.length then
      ("<div class=\"relative group\">\n        <button class=\"text-gray-600 hover:text-gray-900 text-sm font-medium transition-colors flex items-center gap-1\">\n          Reviews\n          <svg class=\"w-4 h-4 transition-transform group-hover:rotate-180\" fill=\"none\" stroke=\"currentColor\" viewBox=\"0 0 24 24\"><path stroke-linecap=\"round\" stroke-linejoin=\"round\" stroke-width=\"2\" d=\"M19 9l-7 7-7-7\"></path></svg>\n        </button>\n        <div class=\"menu-dropdown absolute top-full right-0 pt-2 hidden z-50\">\n          <div class=\"bg-white rounded-xl shadow-lg border border-gray-100 py-2 min-w-[260px]\">").data
      ++ concatAll (d.reviews.map (fun review =>
          ("<a href=\"").data ++ getLocalizedUrl currentLang review.url
          ++ ("\" class=\"block px-4 py-2 text-gray-600 hover:bg-gray-50 hover:text-gray-900 text-sm no-underline transition-colors\">").data
          ++ review.label ++ ("</a>").data))
      ++ ("</div></div></div>").data
    else [])
  ++ ("<a href=\"/about.html\" class=\"text-gray-600 hover:text-gray-900 text-sm font-medium transition-colors no-underline\">About</a>").data
  ++ (if 1 < d.languages.length then buildLanguageDropdown currentLang d.languages else [])
  ++ ("</nav>").data

def handleLoad (currentLang : Str) (fetch : FetchResult) : Str :=
  match fetch with
  | .failure => buildFallbackHtml
  | .ok d => buildMenuHtml currentLang d

end V40

/-! ### Characterization of the region-pattern matcher -/

theorem regionHere_some_iff {s code : Str} :
    regionHere s = some code ↔
      ∃ a b rest, s = "/regions/".data ++ a :: b :: '/' :: rest ∧
        isLowerAZ a ∧ isLowerAZ b ∧ code = [a, b] := by
  constructor
  · intro h
    unfold regionHere at h
    by_cases hp : "/regions/".data.isPrefixOf s
    · rw [if_pos hp] at h
      have hsdec : s = "/regions/".data ++ s.drop 9 := by
        have htake : s.take 9 = "/regions/".data := by
          have := List.prefix_iff_eq_take.1 ((List.isPrefixOf_iff_prefix).1 hp)
          exact this.symm
        conv_lhs => rw [← List.take_append_drop 9 s]
        rw [htake]
      rcases hd : s.drop 9 with _ | ⟨c1, _ | ⟨c2, _ | ⟨c3, rest⟩⟩⟩ <;> rw [hd] at h
      · simp at h
      · simp at h
      · simp at h
      · dsimp only at h
        by_cases h3 : c3 = '/'
        · rw [if_pos h3] at h
          by_cases hab : isLowerAZ c1 && isLowerAZ c2
          · rw [if_pos hab] at h
            refine ⟨c1, c2, rest, ?_, ?_, ?_, ?_⟩
            · rw [hsdec, hd, h3]
            · exact (Bool.and_eq_true_iff.1 hab).1
            · exact (Bool.and_eq_true_iff.1 hab).2
            · simp at h; exact h.symm
          · rw [if_neg hab] at h; simp at h
        · rw [if_neg h3] at h; simp at h
    · rw [if_neg hp] at h; simp at h
  · rintro ⟨a, b, rest, hs, ha, hb, hc⟩
    subst hs; subst hc
    unfold regionHere
    have hp : "/regions/".data.isPrefixOf ("/regions/".data ++ a :: b :: '/' :: rest) := by
      rw [List.isPrefixOf_iff_prefix]
      exact List.prefix_append _ _
    rw [if_pos hp]
    have hd : ("/regions/".data ++ a :: b :: '/' :: rest).drop 9 = a :: b :: '/' :: rest := by
      simp
    rw [hd]
    simp [ha, hb]

theorem regionHere_append_eq {w : Str} (hlen : 12 ≤ w.length) (x y : Str) :
    regionHere (w ++ x) = regionHere (w ++ y) := by
  suffices haux : ∀ u v : Str, ∀ code,
      regionHere (w ++ u) = some code → regionHere (w ++ v) = some code by
    cases hs : regionHere (w ++ x) with
    | some code => rw [haux x y code hs]
    | none =>
      cases ht : regionHere (w ++ y) with
      | none => rfl
      | some code =>
        have hcontra := haux y x code ht
        rw [hs] at hcontra
        exact hcontra
  intro u v code hu
  rcases regionHere_some_iff.1 hu with ⟨a, b, rest, hdec, ha, hb, hc⟩
  have hP : ("/regions/".data ++ [a, b, '/']) ++ rest = w ++ u := by
    rw [hdec]; simp
  have hPw : ("/regions/".data ++ [a, b, '/']) <+: w := by
    apply prefix_append_of_le _ (⟨rest, hP⟩ : _ <+: w ++ u)
    simpa using hlen
  rcases hPw with ⟨w2, hw2⟩
  refine regionHere_some_iff.2 ⟨a, b, w2 ++ v, ?_, ha, hb, hc⟩
  rw [← hw2]
  simp

theorem isLower_no_dollar {lang : Str} (hlow : ∀ c ∈ lang, isLowerAZ c) : '$' ∉ lang := by
  intro hm
  have hc := hlow _ hm
  revert hc
  decide

theorem tpl_no_dollar {lang : Str} (hd : '$' ∉ lang) :
    '$' ∉ ("/regions/".data ++ lang ++ "/".data) := by
  intro hmem
  rcases List.mem_append.1 hmem with h1 | h1
  · rcases List.mem_append.1 h1 with h2 | h2
    · revert h2; decide
    · exact hd h2
  · revert h1; decide

theorem region_match_len {url : Str} {i : Nat} {code : Str}
    (hm : scanFirst regionHere url = some (i, code)) : i + 12 ≤ url.length := by
  have h1 := (scanFirst_eq_some hm).1
  rcases regionHere_some_iff.1 h1 with ⟨a, b, rest, hdec, -, -, -⟩
  have hlist := congrArg List.length hdec
  simp at hlist
  have hd : (url.drop i).length = url.length - i := List.length_drop i url
  omega

/-- A localized-URL replacement, decomposed (both variants share the
definition; stated for v3.1 and transferred by `rfl`). -/
theorem getLocalizedUrl_eq {lang url : Str} {i : Nat} {code : Str}
    (hm : scanFirst regionHere url = some (i, code)) (hd : '$' ∉ lang) :
    V31.getLocalizedUrl lang url
      = url.take i ++ ("/regions/".data ++ lang ++ "/".data) ++ url.drop (i + 12) := by
  unfold V31.getLocalizedUrl
  rw [hm]
  dsimp only
  unfold replaceAt regionLen
  rw [substDollar_no_dollar (tpl_no_dollar hd)]

theorem pat9_not_prefix_cons1 (x : Char) (Z : Str) :
    ¬ ("/regions/".data <+: x :: ("/regions/".data ++ Z)) := by
  intro h
  have heq := List.prefix_iff_eq_take.1 h
  have h9 : ("/regions/".data).length = 9 := by decide
  rw [h9] at heq
  have htake : List.take 9 (x :: ("/regions/".data ++ Z))
      = x :: List.take 8 "/regions/".data := by
    have h8 : List.take 8 ("/regions/".data ++ Z) = List.take 8 "/regions/".data := by
      apply List.take_append_of_le_length
      decide
    simp [h8]
  rw [htake] at heq
  have htl : ("/regions/".data).drop 1 = List.take 8 "/regions/".data := by
    conv_lhs => rw [heq]
    rfl
  revert htl
  decide

theorem pat9_not_prefix_cons2 (x y : Char) (Z : Str) :
    ¬ ("/regions/".data <+: x :: y :: ("/regions/".data ++ Z)) := by
  intro h
  have heq := List.prefix_iff_eq_take.1 h
  have h9 : ("/regions/".data).length = 9 := by decide
  rw [h9] at heq
  have htake : List.take 9 (x :: y :: ("/regions/".data ++ Z))
      = x :: y :: List.take 7 "/regions/".data := by
    have h7 : List.take 7 ("/regions/".data ++ Z) = List.take 7 "/regions/".data := by
      apply List.take_append_of_le_length
      decide
    simp [h7]
  rw [htake] at heq
  have htl : ("/regions/".data).drop 2 = List.take 7 "/regions/".data := by
    conv_lhs => rw [heq]
    rfl
  revert htl
  decide

theorem regionHere_cons1_pat (x : Char) (Z : Str) :
    regionHere (x :: ("/regions/".data ++ Z)) = none := by
  unfold regionHere
  rw [if_neg]
  intro h
  exact pat9_not_prefix_cons1 x Z ((List.isPrefixOf_iff_prefix).1 h)

theorem regionHere_cons2_pat (x y : Char) (Z : Str) :
    regionHere (x :: y :: ("/regions/".data ++ Z)) = none := by
  unfold regionHere
  rw [if_neg]
  intro h
  exact pat9_not_prefix_cons2 x y _ ((List.isPrefixOf_iff_prefix).1 h)

/-- After one localization, the region pattern first matches exactly at the
replaced segment. -/
theorem replaceRegion_first {lang url : Str} {i : Nat} {code : Str}
    (hm : scanFirst regionHere url = some (i, code))
    (h2 : lang.length = 2) (hlow : ∀ c ∈ lang, isLowerAZ c) :
    scanFirst regionHere
        (url.take i ++ ("/regions/".data ++ lang ++ "/".data) ++ url.drop (i + 12))
      = some (i, lang) := by
  rcases List.length_eq_two.1 h2 with ⟨a, b, hab⟩
  have hlocal := scanFirst_eq_some hm
  have hlen := region_match_len hm
  have htklen : (url.take i).length = i := by
    rw [List.length_take]
    omega
  rcases regionHere_some_iff.1 hlocal.1 with ⟨a0, b0, rest0, hdec0, -, -, -⟩
  set r := url.take i ++ ("/regions/".data ++ lang ++ "/".data) ++ url.drop (i + 12) with hr
  have hrassoc : r = url.take i ++ ("/regions/".data ++ (lang ++ ("/".data ++ url.drop (i + 12)))) := by
    rw [hr]
    simp [List.append_assoc]
  apply scanFirst_complete
  · -- a hit at position i
    have hdropi : r.drop i = "/regions/".data ++ (lang ++ ("/".data ++ url.drop (i + 12))) := by
      rw [hrassoc]
      exact List.drop_left' htklen
    rw [hdropi, hab]
    apply regionHere_some_iff.2
    refine ⟨a, b, url.drop (i + 12), by simp, ?_, ?_, rfl⟩
    · exact hlow a (by simp [hab])
    · exact hlow b (by simp [hab])
  · -- no hit below i
    intro j hj
    have hu : (url.take i).drop j ++ ("/regions/".data ++ (lang ++ ("/".data ++ url.drop (i + 12))))
        = r.drop j := by
      rw [hrassoc]
      rw [List.drop_append_of_le_length (by omega)]
    have hulen : ((url.take i).drop j).length = i - j := by
      rw [List.length_drop, htklen]
    have hurl : url.drop j = (url.take i).drop j ++ ("/regions/".data ++ (a0 :: b0 :: '/' :: rest0)) := by
      have hsplit : url = url.take i ++ url.drop i := (List.take_append_drop i url).symm
      calc url.drop j = (url.take i ++ url.drop i).drop j := by rw [← hsplit]
        _ = (url.take i).drop j ++ url.drop i := List.drop_append_of_le_length (by omega)
        _ = (url.take i).drop j ++ ("/regions/".data ++ (a0 :: b0 :: '/' :: rest0)) := by
              rw [hdec0]
    rcases Nat.lt_or_ge j (i - 2) with hj3 | hj12
    · -- distance at least 3: the 12-character window is shared with `url`
      have hw : 12 ≤ ((url.take i).drop j ++ "/regions/".data).length := by
        rw [List.length_append, hulen]
        have : ("/regions/".data).length = 9 := by decide
        omega
      have heq1 : r.drop j = ((url.take i).drop j ++ "/regions/".data)
          ++ (lang ++ ("/".data ++ url.drop (i + 12))) := by
        rw [← hu]
        simp [List.append_assoc]
      have heq2 : url.drop j = ((url.take i).drop j ++ "/regions/".data)
          ++ (a0 :: b0 :: '/' :: rest0) := by
        rw [hurl]
        simp [List.append_assoc]
      rw [heq1, regionHere_append_eq hw _ (a0 :: b0 :: '/' :: rest0), ← heq2]
      exact hlocal.2 j hj
    · -- distance 1 or 2: collision with the fixed pattern characters
      have hd12 : i - j = 1 ∨ i - j = 2 := by omega
      rcases hd12 with hd | hd
      · rcases List.length_eq_one.1 (hulen.trans hd) with ⟨x, hx⟩
        rw [← hu, hx]
        exact regionHere_cons1_pat x _
      · rcases List.length_eq_two.1 (hulen.trans hd) with ⟨x, y, hxy⟩
        rw [← hu, hxy]
        exact regionHere_cons2_pat x y _

/-! ### Claim theorems -/

theorem v40_localize_eq : ∀ lang url, V40.getLocalizedUrl lang url = V31.getLocalizedUrl lang url :=
  fun _ _ => rfl

/-! ### Stability lemmas for the marker scanners -/

theorem isPrefixOf_append_long {p u : Str} (v : Str) (h : p.length ≤ u.length) :
    p.isPrefixOf (u ++ v) = p.isPrefixOf u := by
  by_cases hp : p <+: u
  · rw [(List.isPrefixOf_iff_prefix).2 hp,
      (List.isPrefixOf_iff_prefix).2 (prefix_append_extend hp v)]
  · have hp2 : ¬ p <+: u ++ v := fun hc => hp (prefix_append_of_le h hc)
    rw [Bool.eq_iff_iff, List.isPrefixOf_iff_prefix, List.isPrefixOf_iff_prefix]
    exact ⟨fun hc => absurd hc hp2, fun hc => absurd hc hp⟩

theorem prefix_span {p u v : Str} (h : p <+: u ++ v) (hu : u <+: p) :
    p.drop u.length <+: v := by
  rcases hu with ⟨u', hu'⟩
  rcases h with ⟨r, hr⟩
  have hu'' : u' = p.drop u.length := by
    rw [← hu']
    exact (List.drop_left u u').symm
  have hv : v = u' ++ r := by
    have h2 : u ++ v = u ++ (u' ++ r) := by
      rw [← List.append_assoc, hu', hr]
    exact List.append_cancel_left h2
  rw [hv, ← hu'']
  exact ⟨r, rfl⟩

theorem scanFirst_isSome_of_hit {α : Type} {f : Str → Option α} {s : Str} {p : Nat} {a : α}
    (h : f (s.drop p) = some a) : (scanFirst f s).isSome := by
  cases hs : scanFirst f s with
  | some q => simp
  | none =>
    have := scanFirst_eq_none hs p
    rw [this] at h
    exact absurd h (by simp)

theorem takeWhile_append_lt {q : Char → Bool} {u : Str} (v : Str)
    (h : (u.takeWhile q).length < u.length) :
    (u ++ v).takeWhile q = u.takeWhile q := by
  rw [List.takeWhile_append]
  rw [if_neg (by omega)]

theorem takeWhile_append_le (q : Char → Bool) (y E : Str) :
    ((y ++ E).takeWhile q).length ≤ y.length + (E.takeWhile q).length := by
  rw [List.takeWhile_append]
  by_cases h : (y.takeWhile q).length = y.length
  · rw [if_pos h]
    simp
  · rw [if_neg h]
    have := (List.takeWhile_sublist (l := y) q).length_le
    omega

/-- The terminator matcher ignores everything after a block that ends with
the full `]; // END REVIEWS DATA` terminator: whether (and how) it matches
inside `x ++ E` is decided before the appended continuation, provided the
whitespace-run of the suffix `E` leaves the 19 literal characters in
place. -/
theorem endMatch_stable_core {y E : Str} (A : Str)
    (hE : (E.takeWhile isWs).length + endTokLit.length ≤ E.length) :
    (((y ++ E) ++ A).takeWhile isWs).length = ((y ++ E).takeWhile isWs).length
    ∧ endTokLit.isPrefixOf (((y ++ E) ++ A).drop (((y ++ E).takeWhile isWs).length))
        = endTokLit.isPrefixOf ((y ++ E).drop (((y ++ E).takeWhile isWs).length)) := by
  have h19 : endTokLit.length = 19 := by decide
  have hS1 : ((y ++ E).takeWhile isWs).length ≤ y.length + (E.takeWhile isWs).length :=
    takeWhile_append_le isWs y E
  have hlenYE : (y ++ E).length = y.length + E.length := List.length_append y E
  have hk : ((y ++ E).takeWhile isWs).length + 19 ≤ (y ++ E).length := by omega
  constructor
  · rw [takeWhile_append_lt A (by omega)]
  · have hdropeq : ((y ++ E) ++ A).drop (((y ++ E).takeWhile isWs).length)
        = (y ++ E).drop (((y ++ E).takeWhile isWs).length) ++ A :=
      List.drop_append_of_le_length (by omega)
    rw [hdropeq]
    apply isPrefixOf_append_long
    rw [List.length_drop]
    omega

theorem endTokFull_drop_ws : ∀ d, d ≤ 2 →
    ((endTokFull.drop d).takeWhile isWs).length + endTokLit.length ≤ (endTokFull.drop d).length := by
  decide

/-- `endMatchLen` is stable under appending to a string that ends with the
full terminator. -/
theorem endMatch_body (x A : Str) :
    endMatchLen ((x ++ endTokFull) ++ A) = endMatchLen (x ++ endTokFull) := by
  have h22 : endTokFull.length = 22 := by decide
  have hxE : 2 ≤ (x ++ endTokFull).length := by
    rw [List.length_append]
    omega
  unfold endMatchLen
  rw [isPrefixOf_append_long A (by simpa using hxE)]
  by_cases hp : ("];".data).isPrefixOf (x ++ endTokFull)
  · rw [if_pos hp, if_pos hp]
    have hdrop2 : ((x ++ endTokFull) ++ A).drop 2 = (x ++ endTokFull).drop 2 ++ A :=
      List.drop_append_of_le_length (by omega)
    rw [hdrop2]
    have hdec : (x ++ endTokFull).drop 2 = x.drop 2 ++ endTokFull.drop (2 - x.length) :=
      List.drop_append_eq_append_drop
    have hEcond := endTokFull_drop_ws (2 - x.length) (by omega)
    have hcore := endMatch_stable_core (y := x.drop 2) (E := endTokFull.drop (2 - x.length)) A hEcond
    rw [hdec]
    rw [hcore.1]
    rw [hcore.2]
  · rw [if_neg hp, if_neg hp]

/-- If the freshly serialized block's terminator is the first match inside
it, the same is true with any continuation appended. -/
theorem findEnd_extend {body : Str} (A : Str)
    (h : findEnd (body ++ endTokFull) = some (body.length, 22)) :
    findEnd ((body ++ endTokFull) ++ A) = some (body.length, 22) := by
  have hsound := scanFirst_eq_some (f := endMatchLen) h
  apply scanFirst_complete
  · have hdrop : ((body ++ endTokFull) ++ A).drop body.length = endTokFull ++ A := by
      rw [List.drop_append_of_le_length (by simp), List.drop_left]
    rw [hdrop]
    have h2 : endMatchLen (([] : Str) ++ endTokFull ++ A) = endMatchLen (([] : Str) ++ endTokFull) :=
      endMatch_body [] A
    simp only [List.nil_append] at h2
    rw [h2]
    have : (body ++ endTokFull).drop body.length = endTokFull := List.drop_left body endTokFull
    rw [← this]
    exact hsound.1
  · intro j hj
    have hdropj : ((body ++ endTokFull) ++ A).drop j = (body.drop j ++ endTokFull) ++ A := by
      rw [List.drop_append_of_le_length (by simp; omega),
        List.drop_append_of_le_length (by omega)]
    rw [hdropj, endMatch_body]
    have : (body ++ endTokFull).drop j = body.drop j ++ endTokFull :=
      List.drop_append_of_le_length (by omega)
    rw [← this]
    exact hsound.2 j hj

/-! ### Idempotence of the listing-page rewrite -/

theorem replaceAt_no_dollar {s tpl : Str} {i len : Nat} {groups : List Str}
    (Hd : '$' ∉ tpl) :
    replaceAt s i len tpl groups = s.take i ++ tpl ++ s.drop (i + len) := by
  unfold replaceAt
  rw [substDollar_no_dollar Hd]

theorem startTok_no_overlap : ∀ d, d < 21 → 0 < d →
    (startTok.drop d).isPrefixOf startTok = false := by decide

theorem newBlock_decomp (rs : List Review) :
    newBlock rs = startTok ++ (blockBody rs ++ endTokFull) := by
  unfold newBlock
  rw [List.append_assoc]

theorem newBlock_length (rs : List Review) :
    (newBlock rs).length = startTok.length + ((blockBody rs).length + 22) := by
  unfold newBlock
  rw [List.length_append, List.length_append]
  have h2 : endTokFull.length = 22 := by decide
  omega

/-- The continuation of run 1's marker match: `imHere` succeeded at the
match position, which pins down the structure of `content.drop i`. -/
theorem imHere_dissect {s : Str} {len : Nat} (h : imHere s = some len) :
    startTok.isPrefixOf s ∧
    ∃ j l, findEnd (s.drop startTok.length) = some (j, l) ∧ len = startTok.length + j + l := by
  unfold imHere at h
  by_cases hp : startTok.isPrefixOf s
  · rw [if_pos hp] at h
    rcases Option.map_eq_some'.1 h with ⟨⟨j, l⟩, hfe, hl⟩
    exact ⟨hp, j, l, hfe, hl.symm⟩
  · rw [if_neg hp] at h
    exact absurd h (by simp)

/-- Rewriting the fresh content finds exactly the fresh block again:
the new marker match starts at the same index and spans the whole block.
`Hc1` says the serialized block's own terminator is the first terminator
match inside it (no metadata field smuggles the end marker in). -/
theorem matchIM_of_fresh {rs : List Review} {content : Str} {i len : Nat}
    (hm : matchIM content = some (i, len))
    (Hc1 : findEnd (blockBody rs ++ endTokFull) = some ((blockBody rs).length, 22)) :
    matchIM (content.take i ++ newBlock rs ++ content.drop (i + len))
      = some (i, (newBlock rs).length) := by
  have hsound := scanFirst_eq_some hm
  rcases imHere_dissect hsound.1 with ⟨hsp, j₁, l₁, hfe, hlen₁⟩
  have hst : startTok.length = 21 := by decide
  have hsp' : startTok <+: content.drop i := (List.isPrefixOf_iff_prefix).1 hsp
  have hilen : i + 21 ≤ content.length := by
    have h1 := hsp'.length_le
    have h2 : (content.drop i).length = content.length - i := List.length_drop i content
    omega
  have htk : (content.take i).length = i := by
    rw [List.length_take]
    omega
  have hassoc : content.take i ++ newBlock rs ++ content.drop (i + len)
      = content.take i ++ (newBlock rs ++ content.drop (i + len)) := by
    rw [List.append_assoc]
  apply scanFirst_complete
  · -- the hit at position i
    have hdropi : (content.take i ++ newBlock rs ++ content.drop (i + len)).drop i
        = newBlock rs ++ content.drop (i + len) := by
      rw [hassoc]
      exact List.drop_left' htk
    rw [hdropi]
    unfold imHere
    have hpre : startTok.isPrefixOf (newBlock rs ++ content.drop (i + len)) := by
      rw [List.isPrefixOf_iff_prefix, newBlock_decomp, List.append_assoc]
      exact List.prefix_append _ _
    rw [if_pos hpre]
    have hdrop21 : (newBlock rs ++ content.drop (i + len)).drop startTok.length
        = (blockBody rs ++ endTokFull) ++ content.drop (i + len) := by
      rw [newBlock_decomp, List.append_assoc]
      exact List.drop_left' rfl
    rw [hdrop21, findEnd_extend _ Hc1]
    rw [Option.map_some', newBlock_length]
    dsimp only
    simp only [Option.some.injEq]
    omega
  · -- no earlier start
    intro j hj
    by_cases hpre : startTok.isPrefixOf
        ((content.take i ++ newBlock rs ++ content.drop (i + len)).drop j)
    swap
    · unfold imHere
      rw [if_neg hpre]
    · exfalso
      have hmin := hsound.2 j hj
      have hdropj : (content.take i ++ newBlock rs ++ content.drop (i + len)).drop j
          = (content.take i).drop j ++ (newBlock rs ++ content.drop (i + len)) := by
        rw [hassoc]
        exact List.drop_append_of_le_length (by omega)
      have hulen : ((content.take i).drop j).length = i - j := by
        rw [List.length_drop, htk]
      have hcontdropj : content.drop j = (content.take i).drop j ++ content.drop i := by
        conv_lhs => rw [← List.take_append_drop i content]
        exact List.drop_append_of_le_length (by omega)
      have hpre' := (List.isPrefixOf_iff_prefix).1 hpre
      rw [hdropj] at hpre'
      rcases le_or_lt 21 (i - j) with hbig | hsmall
      · -- the full start literal sits before the replaced region: it was
        -- already an occurrence in `content`, with a terminator after it
        have hstu : startTok <+: (content.take i).drop j := by
          apply prefix_append_of_le _ hpre'
          rw [hulen, hst]
          exact hbig
        have hstc : startTok <+: content.drop j := by
          rw [hcontdropj]
          exact prefix_append_extend hstu _
        have hfesound := scanFirst_eq_some (f := endMatchLen) hfe
        have hhit : endMatchLen (content.drop (i + (startTok.length + j₁))) = some l₁ := by
          have h1 := hfesound.1
          rw [List.drop_drop, List.drop_drop] at h1
          exact h1
        have hhit2 : endMatchLen ((content.drop (j + startTok.length)).drop
            (i + (startTok.length + j₁) - (j + startTok.length))) = some l₁ := by
          rw [List.drop_drop]
          have harith : j + startTok.length + (i + (startTok.length + j₁)
              - (j + startTok.length)) = i + (startTok.length + j₁) := by omega
          rw [harith]
          exact hhit
        have hfeSome : (findEnd (content.drop (j + startTok.length))).isSome :=
          scanFirst_isSome_of_hit (f := endMatchLen) hhit2
        unfold imHere at hmin
        rw [if_pos ((List.isPrefixOf_iff_prefix).2 hstc)] at hmin
        rw [Option.map_eq_none'] at hmin
        rw [List.drop_drop] at hmin
        rw [hmin] at hfeSome
        exact absurd hfeSome (by simp)
      · -- the start literal would have to straddle the boundary: the
        -- spilled tail would be a proper self-overlap of the literal
        have hd0 : 0 < i - j := by omega
        have hules : (content.take i).drop j <+: startTok := by
          rcases prefix_append_cases hpre' with hc | hc
          · exfalso
            have hcl := hc.length_le
            rw [hulen, hst] at hcl
            omega
          · exact hc
        have hspan := prefix_span hpre' hules
        rw [hulen] at hspan
        have hspan2 : startTok.drop (i - j) <+: startTok ++ ((blockBody rs ++ endTokFull)
            ++ content.drop (i + len)) := by
          rw [← List.append_assoc, ← newBlock_decomp]
          exact hspan
        have hfin : startTok.drop (i - j) <+: startTok := by
          apply prefix_append_of_le _ hspan2
          rw [List.length_drop]
          omega
        have := startTok_no_overlap (i - j) (by omega) hd0
        rw [(List.isPrefixOf_iff_prefix).2 hfin] at this
        exact absurd this (by simp)

/-- Run 1 of `updateIndex` outputs the spliced content (whether or not it
differs from the old content). -/
theorem updateIndexContent_run1 {rs : List Review} {content : Str} {i len : Nat}
    (hm : matchIM content = some (i, len)) (Hd : '$' ∉ newBlock rs) :
    ∃ ch msg, updateIndexContent rs content
      = some (content.take i ++ newBlock rs ++ content.drop (i + len), ch, msg) := by
  unfold updateIndexContent
  rw [hm]
  dsimp only
  rw [replaceAt_no_dollar Hd]
  by_cases h : content.take i ++ newBlock rs ++ content.drop (i + len) = content
  · exact ⟨false, _, by rw [if_pos h]⟩
  · exact ⟨true, _, by rw [if_neg h]⟩

/-- Run 2 of `updateIndex` on the freshly written content reports it as up
to date and leaves it unchanged. -/
theorem updateIndex_idem {rs : List Review} {content : Str} {i len : Nat}
    (hm : matchIM content = some (i, len))
    (Hc1 : findEnd (blockBody rs ++ endTokFull) = some ((blockBody rs).length, 22))
    (Hd : '$' ∉ newBlock rs) :
    updateIndexContent rs (content.take i ++ newBlock rs ++ content.drop (i + len))
      = some (content.take i ++ newBlock rs ++ content.drop (i + len), false,
          ("index.html already up to date").data) := by
  have hm2 := matchIM_of_fresh hm Hc1
  have hsound := scanFirst_eq_some hm
  rcases imHere_dissect hsound.1 with ⟨hsp, j₁, l₁, hfe, hlen₁⟩
  have hsp' : startTok <+: content.drop i := (List.isPrefixOf_iff_prefix).1 hsp
  have hst : startTok.length = 21 := by decide
  have hilen : i + 21 ≤ content.length := by
    have h1 := hsp'.length_le
    have h2 : (content.drop i).length = content.length - i := List.length_drop i content
    omega
  have htk : (content.take i).length = i := by
    rw [List.length_take]
    omega
  have hrepl : replaceAt (content.take i ++ newBlock rs ++ content.drop (i + len)) i
      (newBlock rs).length (newBlock rs) []
      = content.take i ++ newBlock rs ++ content.drop (i + len) := by
    rw [replaceAt_no_dollar Hd]
    have hA : (content.take i ++ newBlock rs ++ content.drop (i + len)).take i
        = content.take i := by
      rw [List.append_assoc]
      rw [List.take_append_of_le_length (le_of_eq htk.symm)]
      rw [List.take_take]
      simp
    have hB : (content.take i ++ newBlock rs ++ content.drop (i + len)).drop
        (i + (newBlock rs).length) = content.drop (i + len) := by
      apply List.drop_left'
      rw [List.length_append, htk]
    rw [hA, hB]
  unfold updateIndexContent
  rw [hm2]
  dsimp only
  rw [hrepl, if_pos rfl]

/-! ### Character-position toolkit for the sitemap analysis -/

theorem prefix_getElem? {p w : Str} (h : p <+: w) {d : Nat} (hd : d < p.length) :
    w[d]? = p[d]? := by
  rcases h with ⟨r, hr⟩
  rw [← hr, List.getElem?_append_left hd]

theorem not_prefix_at {p w : Str} {d : Nat} {c1 c2 : Char}
    (h1 : p[d]? = some c1) (h2 : w[d]? = some c2) (hne : c1 ≠ c2) :
    ¬ p <+: w := by
  intro h
  have hd : d < p.length := by
    rcases (List.getElem?_eq_some_iff).1 h1 with ⟨hlt, -⟩
    exact hlt
  rw [prefix_getElem? h hd, h1] at h2
  exact hne (by injection h2)

/-- A would-be occurrence of `p` starting at `j` that covers position `pos`
of `F` is impossible when the character there does not occur in `p`. -/
theorem not_prefix_drop_cover {p F : Str} {j pos : Nat} {c : Char}
    (hj : j ≤ pos) (hcover : pos < j + p.length)
    (hF : F[pos]? = some c) (hc : c ∉ p) : ¬ p <+: F.drop j := by
  intro h
  have hd : pos - j < p.length := by omega
  have heq := prefix_getElem? h hd
  have hFd : (F.drop j)[pos - j]? = some c := by
    rw [List.getElem?_drop]
    have harith : j + (pos - j) = pos := by omega
    rw [harith]
    exact hF
  rw [hFd] at heq
  have hmem : c ∈ p := by
    rcases (List.getElem?_eq_some_iff).1 heq.symm with ⟨hlt, hev⟩
    rw [← hev]
    exact List.getElem_mem _
  exact hc hmem

/-- Variant where the character occurs in `p` only as its final character:
an occurrence covering `pos` strictly before its own end is impossible. -/
theorem not_prefix_drop_cover_strict {p F : Str} {j pos : Nat} {c : Char}
    (hj : j ≤ pos) (hcover : pos + 1 < j + p.length)
    (hF : F[pos]? = some c)
    (hc : ∀ d, d + 1 < p.length → p[d]? ≠ some c) : ¬ p <+: F.drop j := by
  intro h
  have hd : pos - j < p.length := by omega
  have heq := prefix_getElem? h hd
  have hFd : (F.drop j)[pos - j]? = some c := by
    rw [List.getElem?_drop]
    have harith : j + (pos - j) = pos := by omega
    rw [harith]
    exact hF
  rw [hFd] at heq
  exact hc (pos - j) (by omega) heq.symm

theorem takeWhile_le_of_char {q : Char → Bool} {w : Str} {idx : Nat} {c : Char}
    (hidx : w[idx]? = some c) (hc : q c = false) :
    (w.takeWhile q).length ≤ idx := by
  by_contra hgt
  push_neg at hgt
  have hpre := List.takeWhile_prefix (l := w) q
  have heq := prefix_getElem? hpre hgt
  rw [hidx] at heq
  have hmem : c ∈ w.takeWhile q := by
    rcases (List.getElem?_eq_some_iff).1 heq.symm with ⟨hlt, hev⟩
    rw [← hev]
    exact List.getElem_mem _
  have := List.mem_takeWhile_imp hmem
  rw [hc] at this
  exact Bool.noConfusion this

theorem all_of_takeWhile_ge {q : Char → Bool} {u w : Str} (hu : u <+: w)
    (hlen : u.length ≤ (w.takeWhile q).length) : ∀ c ∈ u, q c := by
  intro c hc
  have htw : u <+: w.takeWhile q := by
    rcases List.prefix_or_prefix_of_prefix hu (List.takeWhile_prefix q) with h | h
    · exact h
    · have heq := h.eq_of_length_le hlen
      rw [← heq]
  exact List.mem_takeWhile_imp (htw.subset hc)

theorem takeWhile_stable_of_lt {q : Char → Bool} {u : Str} (v v' : Str)
    (h : ((u ++ v).takeWhile q).length < u.length) :
    (u ++ v').takeWhile q = (u ++ v).takeWhile q := by
  have hu : (u.takeWhile q).length < u.length := by
    by_contra hge
    push_neg at hge
    have hall : ∀ c ∈ u, q c :=
      all_of_takeWhile_ge (List.prefix_refl u) (by
        have := (List.takeWhile_sublist (l := u) q).length_le
        omega)
    rw [List.takeWhile_append_of_pos hall] at h
    simp at h
  rw [takeWhile_append_lt v hu, takeWhile_append_lt v' hu]

theorem prefix_drop_of_prefix_take {p x : Str} {a b : Nat}
    (h : p <+: (x.take a).drop b) : p <+: x.drop b := by
  have hsub : (x.take a).drop b <+: x.drop b := by
    rw [List.drop_take]
    exact List.take_prefix _ _
  exact h.trans hsub

/-! ### Concrete character facts about the sitemap literals -/

/-- The body spliced between the sitemap markers. -/
def bodyB (rs : List Review) : Str := '\n' :: (sitemapEntries rs ++ "\n  ".data)

theorem smStart_len : smStart.length = 47 := by decide
theorem smEnd_len : smEnd.length = 45 := by decide
theorem locLit_len : locLit.length = 60 := by decide
theorem lmOpen_len : lmOpen.length = 9 := by decide
theorem lmClose_len : lmClose.length = 10 := by decide

theorem smStart_head : smStart[0]? = some '<' := by decide
theorem smEnd_head : smEnd[0]? = some '<' := by decide
theorem locLit_head : locLit[0]? = some '<' := by decide
theorem nl_not_mem_smStart : '\n' ∉ smStart := by decide
theorem nl_not_mem_smEnd : '\n' ∉ smEnd := by decide
theorem nl_not_mem_locLit : '\n' ∉ locLit := by decide
theorem smStart_gt_late : ∀ d < 46, smStart[d]? ≠ some '>' := by decide
theorem smEnd_gt_late : ∀ d < 44, smEnd[d]? ≠ some '>' := by decide
theorem locLit_lt_pos : ∀ d < 60, 0 < d → locLit[d]? = some '<' → d = 54 := by decide
theorem locLit_drop54_smStart : (locLit.drop 54).isPrefixOf smStart = false := by decide
theorem locLit_self_overlap : ∀ d < 60, 0 < d → (locLit.drop d).isPrefixOf locLit = false := by
  decide
theorem lmOpen_lt_only_head : ∀ d < 9, 0 < d → lmOpen[d]? ≠ some '<' := by decide
theorem lmClose_lt_only_head : ∀ d < 10, 0 < d → lmClose[d]? ≠ some '<' := by decide
theorem lmOpen_not_pre_smStart : lmOpen.isPrefixOf smStart = false := by decide
theorem lmClose_not_pre_smStart : lmClose.isPrefixOf smStart = false := by decide
theorem lmOpen_not_pre_locLit : lmOpen.isPrefixOf locLit = false := by decide
theorem smEnd_drop_not_pre_locLit : ∀ d < 45, (smEnd.drop d).isPrefixOf locLit = false := by
  decide
theorem lmOpen_last_gt : lmOpen[8]? = some '>' := by decide
theorem isWs_lt_false : isWs '<' = false := by decide

theorem digit_dash_ne_lt {c : Char} (h : c.isDigit = true ∨ c = '-') : c ≠ '<' := by
  rcases h with h | h
  · intro he
    subst he
    exact absurd h (by decide)
  · subst h
    decide

theorem digit_dash_ne_dollar {c : Char} (h : c.isDigit = true ∨ c = '-') : c ≠ '$' := by
  rcases h with h | h
  · intro he
    subst he
    exact absurd h (by decide)
  · subst h
    decide

/-! ### The lastmod substitution template -/

theorem substDollar_append_no_dollar {bef mat aft : Str} {groups : List Str} {u : Str}
    (hu : '$' ∉ u) (t : Str) :
    substDollar bef mat aft groups (u ++ t) = u ++ substDollar bef mat aft groups t := by
  induction u with
  | nil => rfl
  | cons c u ih =>
    have hc : ¬ c = '$' := fun he => hu (by simp [he])
    have hu' : '$' ∉ u := fun hm => hu (List.mem_cons_of_mem _ hm)
    rw [List.cons_append, substDollar.eq_def]
    simp only [if_neg hc]
    rw [ih hu']
    rfl

theorem substDollar_g1 (bef mat aft G1 G2 : Str) (t : Str) :
    substDollar bef mat aft [G1, G2] ('$' :: '1' :: t)
      = G1 ++ substDollar bef mat aft [G1, G2] t := rfl

theorem substDollar_g2 (bef mat aft G1 G2 : Str) (t : Str) :
    substDollar bef mat aft [G1, G2] ('$' :: '2' :: t)
      = G2 ++ substDollar bef mat aft [G1, G2] t := rfl

/-- The `$1${today}$2` template evaluates to group 1, the date, group 2. -/
theorem tplSub (bef mat aft : Str) (G1 G2 : Str) {today : Str} (h : '$' ∉ today) :
    substDollar bef mat aft [G1, G2] ("$1".data ++ today ++ "$2".data)
      = G1 ++ today ++ G2 := by
  have h1 : "$1".data ++ today ++ "$2".data
      = '$' :: '1' :: (today ++ "$2".data) := by simp
  rw [h1, substDollar_g1, substDollar_append_no_dollar h]
  have h2 : ("$2".data : Str) = '$' :: '2' :: [] := rfl
  rw [h2, substDollar_g2]
  simp [substDollar]

/-! ### Dissecting and rebuilding the lastmod patch match -/

theorem prefix_drop_mono {p w : Str} (h : p <+: w) (n : Nat) : p.drop n <+: w.drop n := by
  rcases h with ⟨r, rfl⟩
  by_cases hn : n ≤ p.length
  · rw [List.drop_append_of_le_length hn]
    exact List.prefix_append _ _
  · rw [List.drop_eq_nil_of_le (by omega)]
    exact List.nil_prefix

theorem occ_transfer {lit content X : Str} {k q : Nat}
    (h : lit <+: (content.take k ++ X).drop q)
    (hq : q + lit.length ≤ k) (hk : k ≤ content.length) : lit <+: content.drop q := by
  have hlen : lit.length ≤ ((content.take k).drop q).length := by
    simp only [List.length_drop, List.length_take]
    omega
  rw [List.drop_append_of_le_length (by simp only [List.length_take]; omega)] at h
  exact prefix_drop_of_prefix_take (prefix_append_of_le hlen h)

theorem patchHere_build (W mid R : Str) (hW : ∀ c ∈ W, isWs c = true)
    (hmid : mid ≠ []) (hmidc : ∀ c ∈ mid, ¬ c = '<') :
    patchHere (locLit ++ (W ++ (lmOpen ++ (mid ++ (lmClose ++ R)))))
      = some (locLit.length + W.length + lmOpen.length, mid.length) := by
  have h0 : locLit.isPrefixOf (locLit ++ (W ++ (lmOpen ++ (mid ++ (lmClose ++ R))))) = true :=
    (List.isPrefixOf_iff_prefix).2 (List.prefix_append _ _)
  have hdrop0 : (locLit ++ (W ++ (lmOpen ++ (mid ++ (lmClose ++ R))))).drop locLit.length
      = W ++ (lmOpen ++ (mid ++ (lmClose ++ R))) := List.drop_left _ _
  have htw : (W ++ (lmOpen ++ (mid ++ (lmClose ++ R)))).takeWhile isWs = W := by
    rw [List.takeWhile_append_of_pos hW]
    have : (lmOpen ++ (mid ++ (lmClose ++ R))).takeWhile isWs = [] := by
      rw [show lmOpen = '<' :: "lastmod>".data from rfl, List.cons_append]
      simp [List.takeWhile, isWs_lt_false]
    rw [this, List.append_nil]
  have hdropW : (W ++ (lmOpen ++ (mid ++ (lmClose ++ R)))).drop W.length
      = lmOpen ++ (mid ++ (lmClose ++ R)) := List.drop_left _ _
  have hlm : lmOpen.isPrefixOf (lmOpen ++ (mid ++ (lmClose ++ R))) = true :=
    (List.isPrefixOf_iff_prefix).2 (List.prefix_append _ _)
  have hdropWl : (W ++ (lmOpen ++ (mid ++ (lmClose ++ R)))).drop (W.length + lmOpen.length)
      = mid ++ (lmClose ++ R) := by
    rw [← List.drop_drop, hdropW]
    exact List.drop_left _ _
  have htw2 : (mid ++ (lmClose ++ R)).takeWhile (fun c => c ≠ '<') = mid := by
    rw [List.takeWhile_append_of_pos (fun c hc => decide_eq_true (hmidc c hc))]
    have : (lmClose ++ R).takeWhile (fun c : Char => c ≠ '<') = [] := by
      rw [show lmClose = '<' :: "/lastmod>".data from rfl, List.cons_append]
      simp [List.takeWhile]
    rw [this, List.append_nil]
  have hclose : lmClose.isPrefixOf ((mid ++ (lmClose ++ R)).drop mid.length) = true := by
    rw [List.drop_left]
    exact (List.isPrefixOf_iff_prefix).2 (List.prefix_append _ _)
  unfold patchHere patchTail
  rw [h0, if_pos rfl, hdrop0, htw, hdropWl, htw2, hdropW, hlm, if_pos rfl, hclose]
  rw [if_pos ⟨List.length_pos.2 hmid, rfl⟩]

theorem patchHere_some_decomp {s : Str} {g1 m : Nat} (h : patchHere s = some (g1, m)) :
    ∃ W mid R, s = locLit ++ (W ++ (lmOpen ++ (mid ++ (lmClose ++ R))))
      ∧ (∀ c ∈ W, isWs c = true) ∧ mid ≠ [] ∧ (∀ c ∈ mid, ¬ c = '<')
      ∧ g1 = locLit.length + W.length + lmOpen.length ∧ m = mid.length := by
  unfold patchHere at h
  by_cases h0 : locLit.isPrefixOf s = true
  case neg =>
    rw [Bool.not_eq_true] at h0
    rw [h0] at h
    simp at h
  rw [h0, if_pos rfl] at h
  unfold patchTail at h
  set Y := s.drop locLit.length with hYdef
  set W := Y.takeWhile isWs with hWdef
  set Y3 := Y.drop (W.length + lmOpen.length) with hY3def
  set mid := Y3.takeWhile (fun c => c ≠ '<') with hmiddef
  by_cases h1 : lmOpen.isPrefixOf (Y.drop W.length) = true
  case neg =>
    rw [Bool.not_eq_true] at h1
    rw [h1] at h
    simp at h
  rw [h1, if_pos rfl] at h
  by_cases h2 : 0 < mid.length ∧ lmClose.isPrefixOf (Y3.drop mid.length) = true
  case neg =>
    rw [if_neg h2] at h
    simp at h
  rw [if_pos h2, Option.some.injEq, Prod.mk.injEq] at h
  obtain ⟨hg, hm⟩ := h
  obtain ⟨r1, hr1⟩ := (List.isPrefixOf_iff_prefix).1 h0
  have A1 : s = locLit ++ Y := by
    rw [hYdef, ← hr1, List.drop_left]
  have A2 : Y = W ++ Y.drop W.length := by
    obtain ⟨t, ht⟩ := List.takeWhile_prefix (l := Y) isWs
    rw [show Y.drop W.length = t from by rw [← ht, hWdef, List.drop_left]]
    exact ht.symm
  obtain ⟨u, hu⟩ := (List.isPrefixOf_iff_prefix).1 h1
  have hY3u : Y3 = u := by
    rw [hY3def, ← List.drop_drop, ← hu, List.drop_left]
  have A3 : Y.drop W.length = lmOpen ++ Y3 := by
    rw [hY3u]
    exact hu.symm
  have A4 : Y3 = mid ++ Y3.drop mid.length := by
    obtain ⟨t, ht⟩ := List.takeWhile_prefix (l := Y3) (fun c => c ≠ '<')
    rw [show Y3.drop mid.length = t from by rw [← ht, hmiddef, List.drop_left]]
    exact ht.symm
  obtain ⟨v, hv⟩ := (List.isPrefixOf_iff_prefix).1 h2.2
  have A5 : Y3.drop mid.length = lmClose ++ Y3.drop (mid.length + lmClose.length) := by
    rw [show Y3.drop (mid.length + lmClose.length) = v from by
      rw [← List.drop_drop, ← hv, List.drop_left]]
    exact hv.symm
  refine ⟨W, mid, Y3.drop (mid.length + lmClose.length), ?_, ?_, ?_, ?_, ?_, ?_⟩
  · conv_lhs => rw [A1]
    conv_lhs => rw [A2]
    conv_lhs => rw [A3]
    conv_lhs => rw [A4]
    conv_lhs => rw [A5]
  · intro c hc
    exact List.mem_takeWhile_imp (hWdef ▸ hc)
  · intro he
    rw [he] at h2
    exact absurd h2.1 (by simp)
  · intro c hc
    have hc' : c ∈ Y3.takeWhile (fun c => c ≠ '<') := by
      rw [← hmiddef]
      exact hc
    have hb := List.mem_takeWhile_imp hc'
    simp only [decide_eq_true_eq] at hb
    exact hb
  · omega
  · omega

/-- Whatever follows a failed or pending `lastmod` tail attempt beyond the
next `<loc>…<lastmod>` group is irrelevant to the attempt's outcome: the
whitespace and middle runs are stopped by the `<` opening that group. -/
theorem patchTail_stable (V W s t : Str) :
    patchTail ((V ++ (locLit ++ (W ++ lmOpen))) ++ s)
      = patchTail ((V ++ (locLit ++ (W ++ lmOpen))) ++ t) := by
  set T := locLit ++ (W ++ lmOpen) with hT
  set U := V ++ T with hUdef
  have hTlen : T.length = 60 + (W.length + 9) := by
    rw [hT]
    simp only [List.length_append, locLit_len, lmOpen_len]
  have hUlen : U.length = V.length + (60 + (W.length + 9)) := by
    rw [hUdef, List.length_append, hTlen]
  have hUV : U[V.length]? = some '<' := by
    rw [hUdef, List.getElem?_append_right (le_refl _), Nat.sub_self, hT,
      List.getElem?_append_left (by rw [locLit_len]; omega)]
    exact locLit_head
  have hchar_s : (U ++ s)[V.length]? = some '<' := by
    rw [List.getElem?_append_left (by omega)]
    exact hUV
  have hrun_s : ((U ++ s).takeWhile isWs).length ≤ V.length :=
    takeWhile_le_of_char hchar_s isWs_lt_false
  have hrun_stable : (U ++ s).takeWhile isWs = (U ++ t).takeWhile isWs :=
    (takeWhile_stable_of_lt s t (by omega)).symm
  unfold patchTail
  rw [← hrun_stable]
  set L := ((U ++ s).takeWhile isWs).length with hLdef
  have hdropL : ∀ (x : Str), (U ++ x).drop (L + lmOpen.length)
      = U.drop (L + lmOpen.length) ++ x := fun x =>
    List.drop_append_of_le_length (by rw [lmOpen_len]; omega)
  have hdropL0 : ∀ (x : Str), (U ++ x).drop L = U.drop L ++ x := fun x =>
    List.drop_append_of_le_length (by omega)
  rw [hdropL0 s, hdropL0 t]
  have hlmopen : ∀ (x : Str), lmOpen.isPrefixOf (U.drop L ++ x)
      = lmOpen.isPrefixOf (U.drop L) := fun x =>
    isPrefixOf_append_long x (by rw [List.length_drop, lmOpen_len]; omega)
  rw [hlmopen s, hlmopen t]
  by_cases hb2 : lmOpen.isPrefixOf (U.drop L) = true
  case neg =>
    rw [Bool.not_eq_true] at hb2
    rw [hb2]
    simp
  have hL9 : L + lmOpen.length ≤ V.length := by
    rcases Nat.lt_or_ge L V.length with hlt | hge
    · by_contra hgt
      push_neg at hgt
      have hpre := (List.isPrefixOf_iff_prefix).1 hb2
      have hdV : V.length - L < lmOpen.length := by omega
      have hc := prefix_getElem? hpre hdV
      rw [List.getElem?_drop] at hc
      have harith : L + (V.length - L) = V.length := by omega
      rw [harith, hUV] at hc
      exact lmOpen_lt_only_head (V.length - L) (by rw [lmOpen_len] at hdV; omega)
        (by omega) hc.symm
    · exfalso
      have hLeq : L = V.length := le_antisymm hrun_s hge
      have hdT : U.drop L = T := by
        rw [hLeq, hUdef, List.drop_left]
      rw [hdT, hT] at hb2
      have hpre := prefix_append_of_le (by rw [lmOpen_len, locLit_len]; omega)
        ((List.isPrefixOf_iff_prefix).1 hb2)
      exact absurd ((List.isPrefixOf_iff_prefix).2 hpre)
        (by rw [lmOpen_not_pre_locLit]; simp)
  rw [hdropL s, hdropL t]
  have hchar2 : (U.drop (L + lmOpen.length))[V.length - (L + lmOpen.length)]? = some '<' := by
    rw [List.getElem?_drop]
    have harith : (L + lmOpen.length) + (V.length - (L + lmOpen.length)) = V.length := by
      omega
    rw [harith]
    exact hUV
  have hrun2_s : ((U.drop (L + lmOpen.length) ++ s).takeWhile
      (fun c => c ≠ '<')).length ≤ V.length - (L + lmOpen.length) := by
    apply takeWhile_le_of_char (c := '<')
    · rw [List.getElem?_append_left (by rw [List.length_drop]; omega)]
      exact hchar2
    · simp
  have hrun2_stable : (U.drop (L + lmOpen.length) ++ s).takeWhile (fun c => c ≠ '<')
      = (U.drop (L + lmOpen.length) ++ t).takeWhile (fun c => c ≠ '<') :=
    (takeWhile_stable_of_lt s t (by rw [List.length_drop]; omega)).symm
  rw [← hrun2_stable]
  set M := ((U.drop (L + lmOpen.length) ++ s).takeWhile (fun c => c ≠ '<')).length with hMdef
  have hdropM : ∀ (x : Str), ((U.drop (L + lmOpen.length)) ++ x).drop M
      = (U.drop (L + lmOpen.length)).drop M ++ x := fun x =>
    List.drop_append_of_le_length (by rw [List.length_drop]; omega)
  rw [hdropM s, hdropM t]
  have hclose : ∀ (x : Str), lmClose.isPrefixOf ((U.drop (L + lmOpen.length)).drop M ++ x)
      = lmClose.isPrefixOf ((U.drop (L + lmOpen.length)).drop M) := fun x =>
    isPrefixOf_append_long x
      (by rw [List.length_drop, List.length_drop, lmClose_len, lmOpen_len] at *; omega)
  rw [hclose s, hclose t]

/-- The full patch attempt at one position is insensitive to the text after
the `<loc>…<lastmod>` group, provided at least the literal fits before it. -/
theorem patchHere_stable {D : Str} (W s t : Str) (hD : locLit.length ≤ D.length) :
    patchHere ((D ++ (locLit ++ (W ++ lmOpen))) ++ s)
      = patchHere ((D ++ (locLit ++ (W ++ lmOpen))) ++ t) := by
  unfold patchHere
  have hClen : locLit.length ≤ (D ++ (locLit ++ (W ++ lmOpen))).length := by
    rw [List.length_append]
    omega
  have hpre : ∀ (x : Str), locLit.isPrefixOf ((D ++ (locLit ++ (W ++ lmOpen))) ++ x)
      = locLit.isPrefixOf (D ++ (locLit ++ (W ++ lmOpen))) := fun x =>
    isPrefixOf_append_long x hClen
  rw [hpre s, hpre t]
  by_cases h0 : locLit.isPrefixOf (D ++ (locLit ++ (W ++ lmOpen))) = true
  · rw [h0]
    have hdrop : ∀ (x : Str), ((D ++ (locLit ++ (W ++ lmOpen))) ++ x).drop locLit.length
        = (D.drop locLit.length ++ (locLit ++ (W ++ lmOpen))) ++ x := fun x => by
      rw [List.drop_append_of_le_length hClen, List.drop_append_of_le_length hD]
    rw [hdrop s, hdrop t]
    simp only [if_pos rfl]
    exact patchTail_stable (D.drop locLit.length) W s t
  · rw [Bool.not_eq_true] at h0
    rw [h0]
    simp

theorem patchLastmod_eq_of_none (today : Str) {x : Str}
    (h : scanFirst patchHere x = none) : patchLastmod today x = x := by
  unfold patchLastmod
  rw [h]

theorem patchLastmod_eq_of_scan {today x : Str} {p g1 m : Nat}
    (h : scanFirst patchHere x = some (p, g1, m)) :
    patchLastmod today x = replaceAt x p (g1 + m + lmClose.length)
      ("$1".data ++ today ++ "$2".data)
      [(x.drop p).take g1, (x.drop (p + g1 + m)).take lmClose.length] := by
  unfold patchLastmod
  rw [h]

/-- Applying the `lastmod` date patch twice is the same as applying it
once: the rewritten date is itself a valid nonempty `[^<]+` middle, the
first match is found at the same position, and the substitution rebuilds
the same text. -/
theorem patchLastmod_idem (x : Str) {today : Str} (ht0 : today ≠ [])
    (htc : ∀ c ∈ today, c.isDigit = true ∨ c = '-') :
    patchLastmod today (patchLastmod today x) = patchLastmod today x := by
  cases hscan : scanFirst patchHere x with
  | none =>
    rw [patchLastmod_eq_of_none today hscan, patchLastmod_eq_of_none today hscan]
  | some q =>
    obtain ⟨p, g1, m⟩ := q
    obtain ⟨hhit, hmin⟩ := scanFirst_eq_some hscan
    obtain ⟨W, mid, R, hx_drop, hW, hmid0, hmidc, hg1, hm⟩ := patchHere_some_decomp hhit
    have hg1' : g1 = 60 + W.length + 9 := by
      rw [hg1, locLit_len, lmOpen_len]
    have hlen_drop : x.length - p
        = locLit.length + (W.length + (lmOpen.length + (mid.length
            + (lmClose.length + R.length)))) := by
      rw [← List.length_drop, hx_drop]
      simp [List.length_append]
    rw [locLit_len, lmOpen_len, lmClose_len] at hlen_drop
    have hmid_pos : 0 < mid.length := List.length_pos.2 hmid0
    have hp_le : p ≤ x.length := by omega
    have hGsplit : x.drop p = (locLit ++ W ++ lmOpen) ++ (mid ++ (lmClose ++ R)) := by
      rw [hx_drop]
      simp [List.append_assoc]
    have hGlen : (locLit ++ W ++ lmOpen).length = g1 := by
      simp only [List.length_append, locLit_len, lmOpen_len]
      omega
    have hG1 : (x.drop p).take g1 = locLit ++ W ++ lmOpen := by
      rw [hGsplit]
      exact List.take_left' hGlen
    have hdropg1m : x.drop (p + g1 + m) = lmClose ++ R := by
      have h1 : x.drop (p + g1 + m) = (x.drop p).drop (g1 + m) := by
        rw [List.drop_drop]
        congr 1
        omega
      rw [h1, hGsplit, ← List.append_assoc]
      apply List.drop_left'
      rw [List.length_append, hGlen]
      omega
    have hG2 : (x.drop (p + g1 + m)).take lmClose.length = lmClose := by
      rw [hdropg1m]
      exact List.take_left' rfl
    have hd_today : '$' ∉ today := fun hmem =>
      absurd rfl (digit_dash_ne_dollar (htc _ hmem))
    have hdropEnd : x.drop (p + (g1 + m + lmClose.length)) = R := by
      have h1 : x.drop (p + (g1 + m + lmClose.length))
          = (x.drop p).drop (g1 + m + lmClose.length) := by
        rw [List.drop_drop]
      rw [h1, hGsplit, ← List.append_assoc, ← List.append_assoc]
      apply List.drop_left'
      rw [List.length_append, List.length_append, hGlen, lmClose_len]
      omega
    have hF : patchLastmod today x
        = (x.take p ++ (locLit ++ W ++ lmOpen)) ++ (today ++ (lmClose ++ R)) := by
      rw [patchLastmod_eq_of_scan hscan]
      unfold replaceAt
      rw [hG1, hG2, tplSub _ _ _ _ _ hd_today, hdropEnd]
      simp [List.append_assoc]
    have hxtplen : (x.take p ++ (locLit ++ W ++ lmOpen)).length = p + g1 := by
      rw [List.length_append, List.length_take, hGlen]
      omega
    have hxeq : x = (x.take p ++ (locLit ++ W ++ lmOpen)) ++ (mid ++ (lmClose ++ R)) := by
      conv_lhs => rw [← List.take_append_drop p x, hGsplit]
      simp [List.append_assoc]
    have hFdropP : (patchLastmod today x).drop p
        = (locLit ++ W ++ lmOpen) ++ (today ++ (lmClose ++ R)) := by
      rw [hF, List.append_assoc]
      apply List.drop_left'
      rw [List.length_take]
      omega
    have hhit2 : patchHere ((patchLastmod today x).drop p) = some (g1, today.length) := by
      rw [hFdropP]
      have hshape : (locLit ++ W ++ lmOpen) ++ (today ++ (lmClose ++ R))
          = locLit ++ (W ++ (lmOpen ++ (today ++ (lmClose ++ R)))) := by
        simp [List.append_assoc]
      rw [hshape, patchHere_build W today R hW ht0
        (fun c hc => digit_dash_ne_lt (htc c hc))]
      rw [locLit_len, lmOpen_len, ← hg1']
    have hmin2 : ∀ j, j < p → patchHere ((patchLastmod today x).drop j) = none := by
      intro j hj
      have hCj : (patchLastmod today x).drop j
          = (x.take p ++ (locLit ++ W ++ lmOpen)).drop j ++ (today ++ (lmClose ++ R)) := by
        rw [hF]
        exact List.drop_append_of_le_length (by omega)
      have hxj : x.drop j
          = (x.take p ++ (locLit ++ W ++ lmOpen)).drop j ++ (mid ++ (lmClose ++ R)) := by
        conv_lhs => rw [hxeq]
        exact List.drop_append_of_le_length (by omega)
      by_cases hloc : locLit.isPrefixOf ((x.take p ++ (locLit ++ W ++ lmOpen)).drop j) = true
      · have hlocx : locLit <+: x.drop j := by
          rw [hxj]
          exact prefix_append_extend ((List.isPrefixOf_iff_prefix).1 hloc) _
        have hlocp : locLit <+: x.drop p := by
          rw [hx_drop]
          exact List.prefix_append _ _
        have hsep : j + locLit.length ≤ p := by
          by_contra hlt
          push_neg at hlt
          have hd0 : 0 < p - j := by omega
          have hdrop2 : locLit.drop (p - j) <+: x.drop p := by
            have h1 := prefix_drop_mono hlocx (p - j)
            rw [List.drop_drop] at h1
            have harith : j + (p - j) = p := by omega
            rw [harith] at h1
            exact h1
          have hsmall : (locLit.drop (p - j)).length ≤ locLit.length := by
            rw [List.length_drop]
            omega
          have hpp := List.prefix_of_prefix_length_le hdrop2 hlocp hsmall
          have hfalse := locLit_self_overlap (p - j)
            (by rw [locLit_len] at hlt; omega) hd0
          rw [(List.isPrefixOf_iff_prefix).2 hpp] at hfalse
          cases hfalse
        have hDlen : locLit.length ≤ ((x.take p).drop j).length := by
          rw [List.length_drop, List.length_take]
          omega
        have hsplitj : (x.take p ++ (locLit ++ W ++ lmOpen)).drop j
            = (x.take p).drop j ++ (locLit ++ (W ++ lmOpen)) := by
          rw [List.drop_append_of_le_length (by rw [List.length_take]; omega)]
          simp [List.append_assoc]
        rw [hCj, hsplitj]
        rw [patchHere_stable W (today ++ (lmClose ++ R)) (mid ++ (lmClose ++ R)) hDlen]
        rw [← hsplitj, ← hxj]
        exact hmin j hj
      · rw [Bool.not_eq_true] at hloc
        unfold patchHere
        rw [hCj]
        rw [isPrefixOf_append_long _ (by
          rw [List.length_drop, hxtplen, locLit_len]
          omega), hloc]
        simp
    have hscan2 : scanFirst patchHere (patchLastmod today x)
        = some (p, g1, today.length) :=
      scanFirst_complete hhit2 hmin2
    have hFG1 : ((patchLastmod today x).drop p).take g1 = locLit ++ W ++ lmOpen := by
      rw [hFdropP]
      exact List.take_left' hGlen
    have hFG2 : ((patchLastmod today x).drop (p + g1 + today.length)).take lmClose.length
        = lmClose := by
      have h1 : (patchLastmod today x).drop (p + g1 + today.length)
          = ((patchLastmod today x).drop p).drop (g1 + today.length) := by
        rw [List.drop_drop]
        congr 1
        omega
      rw [h1, hFdropP, ← List.append_assoc]
      rw [List.drop_left' (by rw [List.length_append, hGlen])]
      exact List.take_left' rfl
    have hFdropEnd : (patchLastmod today x).drop (p + (g1 + today.length + lmClose.length))
        = R := by
      have h1 : (patchLastmod today x).drop (p + (g1 + today.length + lmClose.length))
          = ((patchLastmod today x).drop p).drop (g1 + today.length + lmClose.length) := by
        rw [List.drop_drop]
      rw [h1, hFdropP, ← List.append_assoc, ← List.append_assoc]
      apply List.drop_left'
      rw [List.length_append, List.length_append, hGlen, lmClose_len]
    have hFtakeP : (patchLastmod today x).take p = x.take p := by
      rw [hF, List.append_assoc]
      rw [List.take_append_of_le_length (by rw [List.length_take]; omega)]
      rw [List.take_take, Nat.min_self]
    rw [patchLastmod_eq_of_scan hscan2]
    unfold replaceAt
    rw [hFG1, hFG2, tplSub _ _ _ _ _ hd_today, hFdropEnd, hFtakeP]
    conv_rhs => rw [hF]
    simp [List.append_assoc]

/-- No marker-like literal occurs anywhere inside the freshly spliced body:
not inside the entries (hypothesis), not across the newline seams. -/
theorem no_hit_in_B {lit : Str} {rs : List Review} (A : Str)
    (h0 : lit[0]? = some '<') (hnl : '\n' ∉ lit) (hlen : 0 < lit.length)
    (hE : firstIdx lit (sitemapEntries rs) = none) :
    ∀ o, o < (bodyB rs).length → ¬ lit <+: (bodyB rs ++ A).drop o := by
  intro o ho hpre
  have hshape : bodyB rs ++ A
      = '\n' :: (sitemapEntries rs ++ ('\n' :: (' ' :: (' ' :: A)))) := by
    show '\n' :: ((sitemapEntries rs ++ "\n  ".data) ++ A) = _
    rw [List.append_assoc]
    rfl
  have hblen : (bodyB rs).length = (sitemapEntries rs).length + 4 := by
    show ('\n' :: (sitemapEntries rs ++ "\n  ".data)).length = _
    simp
  rcases Nat.eq_zero_or_pos o with ho0 | hopos
  · subst ho0
    rw [List.drop_zero, hshape] at hpre
    have hhead : ('\n' :: (sitemapEntries rs
        ++ ('\n' :: (' ' :: (' ' :: A)))))[0]? = some '\n' := by simp
    exact not_prefix_at h0 hhead (by decide) hpre
  · obtain ⟨o', rfl⟩ : ∃ o', o = o' + 1 := ⟨o - 1, by omega⟩
    rw [hshape, List.drop_succ_cons] at hpre
    have ho' : o' < (sitemapEntries rs).length + 3 := by
      rw [hblen] at ho
      omega
    rcases Nat.lt_or_ge (o' + lit.length) ((sitemapEntries rs).length + 1) with hin | hcross
    · have hdrop : (sitemapEntries rs ++ ('\n' :: (' ' :: (' ' :: A)))).drop o'
          = (sitemapEntries rs).drop o' ++ ('\n' :: (' ' :: (' ' :: A))) :=
        List.drop_append_of_le_length (by omega)
      rw [hdrop] at hpre
      have hin2 := prefix_append_of_le (by rw [List.length_drop]; omega) hpre
      exact firstIdx_eq_none hE o' hin2
    · rcases Nat.lt_or_ge (sitemapEntries rs).length o' with hout | hle
      · have hchar : ((sitemapEntries rs
            ++ ('\n' :: (' ' :: (' ' :: A)))).drop o')[0]? = some ' ' := by
          rw [List.getElem?_drop, List.getElem?_append_right (by omega)]
          have h12 : o' + 0 - (sitemapEntries rs).length = 1
              ∨ o' + 0 - (sitemapEntries rs).length = 2 := by omega
          rcases h12 with h1 | h1
          · rw [h1]
            simp
          · rw [h1]
            simp
        exact not_prefix_at h0 hchar (by decide) hpre
      · have hF : (sitemapEntries rs
            ++ ('\n' :: (' ' :: (' ' :: A))))[(sitemapEntries rs).length]? = some '\n' := by
          rw [List.getElem?_append_right (le_refl _), Nat.sub_self]
          simp
        exact not_prefix_drop_cover hle (by omega) hF hnl hpre

/-- The second-run shape: a sitemap of the form
`X ++ smStart ++ body(rs) ++ smEnd ++ A2` whose prefix regions contain no
earlier marker occurrences is recognised, re-spliced to itself, and (if the
lastmod patch also fixes it) reported as already up to date. -/
theorem run2_out (rs : List Review) (today X A2 : Str)
    (hminS : ∀ q, q < X.length →
      ¬ smStart <+: ((X ++ smStart) ++ (bodyB rs ++ (smEnd ++ A2))).drop q)
    (hminE : ∀ q, q + smEnd.length ≤ (X ++ smStart).length →
      ¬ smEnd <+: ((X ++ smStart) ++ (bodyB rs ++ (smEnd ++ A2))).drop q)
    (HnoEM : firstIdx smEnd (sitemapEntries rs) = none)
    (hpatch : patchLastmod today ((X ++ smStart) ++ (bodyB rs ++ (smEnd ++ A2)))
      = (X ++ smStart) ++ (bodyB rs ++ (smEnd ++ A2))) :
    updateSitemapContent rs today ((X ++ smStart) ++ (bodyB rs ++ (smEnd ++ A2)))
      = some ((X ++ smStart) ++ (bodyB rs ++ (smEnd ++ A2)), false,
          "sitemap.xml already up to date".data) := by
  have hhitS : smStart <+: ((X ++ smStart) ++ (bodyB rs ++ (smEnd ++ A2))).drop X.length := by
    rw [List.append_assoc, List.drop_left]
    exact List.prefix_append _ _
  have hS : firstIdx smStart ((X ++ smStart) ++ (bodyB rs ++ (smEnd ++ A2)))
      = some X.length := firstIdx_complete hhitS hminS
  have hdropE : ((X ++ smStart) ++ (bodyB rs ++ (smEnd ++ A2))).drop
      ((X ++ smStart).length + (bodyB rs).length) = smEnd ++ A2 := by
    rw [← List.append_assoc]
    apply List.drop_left'
    rw [List.length_append]
  have hhitE : smEnd <+: ((X ++ smStart) ++ (bodyB rs ++ (smEnd ++ A2))).drop
      ((X ++ smStart).length + (bodyB rs).length) := by
    rw [hdropE]
    exact List.prefix_append _ _
  have hnlq : ((X ++ smStart) ++ (bodyB rs ++ (smEnd ++ A2)))[(X ++ smStart).length]?
      = some '\n' := by
    rw [List.getElem?_append_right (le_refl _), Nat.sub_self]
    show (('\n' :: (sitemapEntries rs ++ "\n  ".data)) ++ (smEnd ++ A2))[0]? = some '\n'
    simp
  have hminE2 : ∀ q, q < (X ++ smStart).length + (bodyB rs).length →
      ¬ smEnd <+: ((X ++ smStart) ++ (bodyB rs ++ (smEnd ++ A2))).drop q := by
    intro q hq
    rcases Nat.lt_or_ge ((X ++ smStart).length) (q + smEnd.length) with hcross | hfit
    · rcases Nat.lt_or_ge ((X ++ smStart).length) q with hout | hle
      · intro hpre
        have hdropq : ((X ++ smStart) ++ (bodyB rs ++ (smEnd ++ A2))).drop q
            = (bodyB rs ++ (smEnd ++ A2)).drop (q - (X ++ smStart).length) := by
          conv_lhs => rw [show q = (X ++ smStart).length + (q - (X ++ smStart).length)
            from by omega]
          exact List.drop_append _
        rw [hdropq] at hpre
        exact no_hit_in_B (smEnd ++ A2) smEnd_head nl_not_mem_smEnd
          (by rw [smEnd_len]; omega) HnoEM (q - (X ++ smStart).length) (by omega) hpre
      · exact not_prefix_drop_cover hle hcross hnlq nl_not_mem_smEnd
    · exact hminE q hfit
  have hE2 : firstIdx smEnd ((X ++ smStart) ++ (bodyB rs ++ (smEnd ++ A2)))
      = some ((X ++ smStart).length + (bodyB rs).length) :=
    firstIdx_complete hhitE hminE2
  have htakeQ : ((X ++ smStart) ++ (bodyB rs ++ (smEnd ++ A2))).take
      (X.length + smStart.length) = X ++ smStart :=
    List.take_left' (by rw [List.length_append])
  have hupd : sitemapUpdated rs ((X ++ smStart) ++ (bodyB rs ++ (smEnd ++ A2)))
      X.length ((X ++ smStart).length + (bodyB rs).length)
      = (X ++ smStart) ++ (bodyB rs ++ (smEnd ++ A2)) := by
    unfold sitemapUpdated
    rw [htakeQ, hdropE]
    rw [show ('\n' :: (sitemapEntries rs ++ "\n  ".data)) = bodyB rs from rfl]
    rw [List.append_assoc]
  unfold updateSitemapContent
  rw [hS, hE2]
  dsimp only
  rw [hupd, hpatch, if_pos rfl]

/-- Closed form of one patch application at a dissected match. -/
theorem patchLastmod_shape {x today : Str} {p g1 m : Nat} {W mid R : Str}
    (hscan : scanFirst patchHere x = some (p, g1, m))
    (hx_drop : x.drop p = locLit ++ (W ++ (lmOpen ++ (mid ++ (lmClose ++ R)))))
    (hg1 : g1 = locLit.length + W.length + lmOpen.length) (hm : m = mid.length)
    (hd_today : '$' ∉ today) :
    patchLastmod today x
      = (x.take p ++ (locLit ++ W ++ lmOpen)) ++ (today ++ (lmClose ++ R)) := by
  have hGsplit : x.drop p = (locLit ++ W ++ lmOpen) ++ (mid ++ (lmClose ++ R)) := by
    rw [hx_drop]
    simp [List.append_assoc]
  have hGlen : (locLit ++ W ++ lmOpen).length = g1 := by
    rw [hg1]
    simp only [List.length_append]
  have hG1 : (x.drop p).take g1 = locLit ++ W ++ lmOpen := by
    rw [hGsplit]
    exact List.take_left' hGlen
  have hdropg1m : x.drop (p + g1 + m) = lmClose ++ R := by
    have h1 : x.drop (p + g1 + m) = (x.drop p).drop (g1 + m) := by
      rw [List.drop_drop]
      congr 1
      omega
    rw [h1, hGsplit, ← List.append_assoc]
    apply List.drop_left'
    rw [List.length_append, hGlen]
    omega
  have hG2 : (x.drop (p + g1 + m)).take lmClose.length = lmClose := by
    rw [hdropg1m]
    exact List.take_left' rfl
  have hdropEnd : x.drop (p + (g1 + m + lmClose.length)) = R := by
    have h1 : x.drop (p + (g1 + m + lmClose.length))
        = (x.drop p).drop (g1 + m + lmClose.length) := by
      rw [List.drop_drop]
    rw [h1, hGsplit, ← List.append_assoc, ← List.append_assoc]
    apply List.drop_left'
    rw [List.length_append, List.length_append, hGlen]
    omega
  rw [patchLastmod_eq_of_scan hscan]
  unfold replaceAt
  rw [hG1, hG2, tplSub _ _ _ _ _ hd_today, hdropEnd]
  simp [List.append_assoc]

/-- The splice output, decomposed at its markers. -/
theorem sitemapUpdated_decomp (rs : List Review) {content : Str} {s e : Nat}
    (hsHit : smStart <+: content.drop s) (heHit : smEnd <+: content.drop e) :
    sitemapUpdated rs content s e
      = ((content.take s ++ smStart)
          ++ (bodyB rs ++ (smEnd ++ content.drop (e + smEnd.length)))) := by
  have hP : content.take (s + smStart.length) = content.take s ++ smStart := by
    rw [List.take_add]
    congr 1
    exact (List.prefix_iff_eq_take.1 hsHit).symm
  have hA : content.drop e = smEnd ++ content.drop (e + smEnd.length) := by
    conv_lhs => rw [← List.take_append_drop smEnd.length (content.drop e)]
    rw [← List.prefix_iff_eq_take.1 heHit, List.drop_drop]
  unfold sitemapUpdated
  rw [hP, hA]
  rw [show ('\n' :: (sitemapEntries rs ++ "\n  ".data)) = bodyB rs from rfl]
  simp [List.append_assoc]

/-- In any string extending the original prefix region of the sitemap, no
marker occurs strictly before its first occurrence in the original. -/
theorem hmin_content (rs : List Review) {content : Str} {s e : Nat} (A2 : Str)
    (hs : firstIdx smStart content = some s) (he : firstIdx smEnd content = some e)
    (horder : s + smStart.length ≤ e) (hs_le : s + smStart.length ≤ content.length) :
    (∀ q, q < (content.take s).length →
      ¬ smStart <+: (((content.take s ++ smStart)) ++ (bodyB rs ++ (smEnd ++ A2))).drop q)
    ∧ (∀ q, q + smEnd.length ≤ (content.take s ++ smStart).length →
      ¬ smEnd <+: (((content.take s ++ smStart)) ++ (bodyB rs ++ (smEnd ++ A2))).drop q) := by
  have hsMin := (firstIdx_eq_some hs).2
  have heMin := (firstIdx_eq_some he).2
  have hXlen : (content.take s).length = s := by
    rw [List.length_take]
    rw [smStart_len] at hs_le
    omega
  have hQlen : (content.take s ++ smStart).length = s + smStart.length := by
    rw [List.length_append, hXlen]
  have hPQ : content.take s ++ smStart = content.take (s + smStart.length) := by
    rw [List.take_add]
    congr 1
    exact List.prefix_iff_eq_take.1 (firstIdx_eq_some hs).1
  constructor
  · intro q hq hpre
    rw [hXlen] at hq
    rw [hPQ] at hpre
    have htr := occ_transfer hpre (by rw [smStart_len] at *; omega) hs_le
    exact hsMin q hq htr
  · intro q hq hpre
    rw [hQlen] at hq
    rw [hPQ] at hpre
    have htr := occ_transfer hpre (by omega) hs_le
    exact heMin q (by rw [smStart_len, smEnd_len] at *; omega) htr

/-- Any successful `lastmod` patch match in the freshly spliced sitemap lies
either entirely before the start marker or entirely after the end marker:
the match cannot overlap the markers or the generated body. -/
theorem patch_zone (rs : List Review) {content : Str} {s e p g1 m : Nat}
    (hs : firstIdx smStart content = some s) (he : firstIdx smEnd content = some e)
    (HnoLoc : firstIdx locLit (sitemapEntries rs) = none)
    (hscan : scanFirst patchHere (sitemapUpdated rs content s e) = some (p, g1, m)) :
    p + (g1 + m + lmClose.length) ≤ s
      ∨ (s + smStart.length) + (bodyB rs).length + smEnd.length ≤ p := by
  have hll := locLit_len
  have hlm := lmOpen_len
  have hlc := lmClose_len
  have hsml := smStart_len
  have hsel := smEnd_len
  obtain ⟨hhit, hmin⟩ := scanFirst_eq_some hscan
  obtain ⟨W, mid, R, hdropP, hW, hmid0, hmidc, hg1, hm⟩ := patchHere_some_decomp hhit
  have hsHit := (firstIdx_eq_some hs).1
  have heHit := (firstIdx_eq_some he).1
  have hupd := sitemapUpdated_decomp rs hsHit heHit
  have hs_le : s + smStart.length ≤ content.length := by
    have h1 := hsHit.length_le
    rw [List.length_drop] at h1
    omega
  have hXlen : (content.take s).length = s := by
    rw [List.length_take]
    omega
  have hQlen : (content.take s ++ smStart).length = s + smStart.length := by
    rw [List.length_append, hXlen]
  have hlocp : locLit <+: (sitemapUpdated rs content s e).drop p := by
    rw [hdropP]
    exact List.prefix_append _ _
  have hQdrop : (sitemapUpdated rs content s e).drop s
      = smStart ++ (bodyB rs ++ (smEnd ++ content.drop (e + smEnd.length))) := by
    rw [hupd, List.drop_append_of_le_length (by omega), List.drop_left' hXlen]
  have hcharS : (sitemapUpdated rs content s e)[s]? = some '<' := by
    have h1 := List.getElem?_drop (sitemapUpdated rs content s e) s 0
    rw [Nat.add_zero] at h1
    rw [← h1, hQdrop, List.getElem?_append_left (by omega)]
    exact smStart_head
  rcases Nat.lt_or_ge p ((s + smStart.length) + (bodyB rs).length) with hp1 | hp2
  · rcases Nat.lt_or_ge p (s + smStart.length) with hq1 | hq2
    · rcases Nat.lt_or_ge (s + smStart.length) (p + locLit.length) with hcr | hok2
      · exfalso
        have hnlQ : (sitemapUpdated rs content s e)[s + smStart.length]? = some '\n' := by
          rw [hupd, List.getElem?_append_right (by omega), hQlen, Nat.sub_self]
          show (('\n' :: (sitemapEntries rs ++ "\n  ".data))
            ++ (smEnd ++ content.drop (e + smEnd.length)))[0]? = some '\n'
          simp
        exact not_prefix_drop_cover (by omega) (by omega) hnlQ nl_not_mem_locLit hlocp
      · rcases Nat.lt_or_ge s (p + locLit.length) with hov | hok
        · exfalso
          have hppos : p + 13 ≤ s := by omega
          have hchar : locLit[s - p]? = some '<' := by
            have h1 := prefix_getElem? hlocp (show s - p < locLit.length by omega)
            rw [List.getElem?_drop, show p + (s - p) = s from by omega, hcharS] at h1
            exact h1.symm
          have hd54 := locLit_lt_pos (s - p) (by omega) (by omega) hchar
          have h54 : locLit.drop 54 <+: (sitemapUpdated rs content s e).drop s := by
            have h2 := prefix_drop_mono hlocp 54
            rw [List.drop_drop, show p + 54 = s from by omega] at h2
            exact h2
          have hsm : smStart <+: (sitemapUpdated rs content s e).drop s := by
            rw [hQdrop]
            exact List.prefix_append _ _
          have hpp := List.prefix_of_prefix_length_le h54 hsm
            (by rw [List.length_drop]; omega)
          have hfalse := locLit_drop54_smStart
          rw [(List.isPrefixOf_iff_prefix).2 hpp] at hfalse
          cases hfalse
        · left
          by_contra hbig
          push_neg at hbig
          have hg1' : g1 = 60 + W.length + 9 := by omega
          have hTo : ((sitemapUpdated rs content s e).drop p)[s - p]? = some '<' := by
            rw [List.getElem?_drop, show p + (s - p) = s from by omega]
            exact hcharS
          rw [hdropP, List.getElem?_append_right (by omega)] at hTo
          rcases Nat.lt_or_ge (s - p - locLit.length) W.length with hW1 | hW1
          · rw [List.getElem?_append_left hW1] at hTo
            have hmem : '<' ∈ W := by
              rcases (List.getElem?_eq_some_iff).1 hTo with ⟨hlt, hev⟩
              rw [← hev]
              exact List.getElem_mem _
            have h2 := hW '<' hmem
            rw [isWs_lt_false] at h2
            cases h2
          · rw [List.getElem?_append_right hW1] at hTo
            rcases Nat.lt_or_ge (s - p - locLit.length - W.length) lmOpen.length
              with hO2 | hO2
            · rcases Nat.eq_zero_or_pos (s - p - locLit.length - W.length) with h0 | hpos2
              · have hlmo : lmOpen <+: (sitemapUpdated rs content s e).drop s := by
                  have h2 : ((sitemapUpdated rs content s e).drop p).drop
                      (locLit.length + W.length)
                      = lmOpen ++ (mid ++ (lmClose ++ R)) := by
                    rw [hdropP, ← List.append_assoc]
                    exact List.drop_left' (by rw [List.length_append])
                  rw [List.drop_drop, show p + (locLit.length + W.length) = s
                    from by omega] at h2
                  rw [h2]
                  exact List.prefix_append _ _
                have hsm : smStart <+: (sitemapUpdated rs content s e).drop s := by
                  rw [hQdrop]
                  exact List.prefix_append _ _
                have hpp := List.prefix_of_prefix_length_le hlmo hsm (by omega)
                have hfalse := lmOpen_not_pre_smStart
                rw [(List.isPrefixOf_iff_prefix).2 hpp] at hfalse
                cases hfalse
              · rw [List.getElem?_append_left hO2] at hTo
                exact lmOpen_lt_only_head _ (by omega) hpos2 hTo
            · rw [List.getElem?_append_right hO2] at hTo
              rcases Nat.lt_or_ge (s - p - locLit.length - W.length - lmOpen.length)
                  mid.length with hM | hM
              · rw [List.getElem?_append_left hM] at hTo
                have hmem : '<' ∈ mid := by
                  rcases (List.getElem?_eq_some_iff).1 hTo with ⟨hlt, hev⟩
                  rw [← hev]
                  exact List.getElem_mem _
                exact hmidc '<' hmem rfl
              · rw [List.getElem?_append_right hM] at hTo
                rcases Nat.eq_zero_or_pos
                    (s - p - locLit.length - W.length - lmOpen.length - mid.length)
                  with h0 | hpos4
                · have hlmc : lmClose <+: (sitemapUpdated rs content s e).drop s := by
                    have h2 : ((sitemapUpdated rs content s e).drop p).drop
                        (locLit.length + W.length + lmOpen.length + mid.length)
                        = lmClose ++ R := by
                      rw [hdropP, ← List.append_assoc, ← List.append_assoc,
                        ← List.append_assoc]
                      exact List.drop_left' (by
                        rw [List.length_append, List.length_append, List.length_append])
                    rw [List.drop_drop, show p + (locLit.length + W.length
                      + lmOpen.length + mid.length) = s from by omega] at h2
                    rw [h2]
                    exact List.prefix_append _ _
                  have hsm : smStart <+: (sitemapUpdated rs content s e).drop s := by
                    rw [hQdrop]
                    exact List.prefix_append _ _
                  have hpp := List.prefix_of_prefix_length_le hlmc hsm (by omega)
                  have hfalse := lmClose_not_pre_smStart
                  rw [(List.isPrefixOf_iff_prefix).2 hpp] at hfalse
                  cases hfalse
                · rw [List.getElem?_append_left (by omega)] at hTo
                  exact lmClose_lt_only_head _ (by omega) hpos4 hTo
    · exfalso
      have hdropB : (sitemapUpdated rs content s e).drop p
          = (bodyB rs ++ (smEnd ++ content.drop (e + smEnd.length))).drop
              (p - (s + smStart.length)) := by
        conv_lhs => rw [hupd, show p = (content.take s ++ smStart).length
          + (p - (s + smStart.length)) from by rw [hQlen]; omega]
        exact List.drop_append _
      rw [hdropB] at hlocp
      exact no_hit_in_B _ locLit_head nl_not_mem_locLit (by omega) HnoLoc
        _ (by omega) hlocp
  · right
    by_contra hno
    push_neg at hno
    have hdropS2 : (sitemapUpdated rs content s e).drop p
        = (smEnd ++ content.drop (e + smEnd.length)).drop
            (p - (s + smStart.length) - (bodyB rs).length) := by
      conv_lhs => rw [hupd, show p = (content.take s ++ smStart).length
        + (p - (s + smStart.length)) from by rw [hQlen]; omega]
      rw [List.drop_append]
      conv_lhs => rw [show p - (s + smStart.length) = (bodyB rs).length
        + (p - (s + smStart.length) - (bodyB rs).length) from by omega]
      exact List.drop_append _
    rw [hdropS2, List.drop_append_of_le_length (by omega)] at hlocp
    rcases prefix_append_cases hlocp with hc1 | hc1
    · have h2 := hc1.length_le
      rw [List.length_drop] at h2
      omega
    · have hfalse := smEnd_drop_not_pre_locLit
        (p - (s + smStart.length) - (bodyB rs).length) (by omega)
      rw [(List.isPrefixOf_iff_prefix).2 hc1] at hfalse
      cases hfalse

/-- A `<`-headed, `>`-free-except-last literal absent from the region before
a bound is still absent from the corresponding region after the date patch:
positions before the match transfer directly, positions inside the rewritten
date region are excluded by character, positions after it shift by the date
length. -/
theorem patched_min (x today : Str) {p g1 m : Nat} {W mid R : Str} (lit : Str)
    (ubound : Nat)
    (hscan : scanFirst patchHere x = some (p, g1, m))
    (hxdrop : x.drop p = locLit ++ (W ++ (lmOpen ++ (mid ++ (lmClose ++ R)))))
    (hg1 : g1 = locLit.length + W.length + lmOpen.length) (hm : m = mid.length)
    (htc : ∀ c ∈ today, c.isDigit = true ∨ c = '-')
    (hlit_head : lit[0]? = some '<')
    (hlit_gt : ∀ d, d + 1 < lit.length → lit[d]? ≠ some '>')
    (hub : p + (g1 + m + lmClose.length) ≤ ubound + m)
    (hxmin : ∀ u, u + lit.length ≤ ubound + m → ¬ lit <+: x.drop u) :
    ∀ q, q + lit.length ≤ ubound + today.length →
      ¬ lit <+: (patchLastmod today x).drop q := by
  have hll := locLit_len
  have hlm := lmOpen_len
  have hlc := lmClose_len
  have hg1' : g1 = 60 + W.length + 9 := by omega
  have hd_today : '$' ∉ today := fun hmem =>
    absurd rfl (digit_dash_ne_dollar (htc _ hmem))
  have hF := patchLastmod_shape hscan hxdrop hg1 hm hd_today
  have hxlen : x.length - p = 60 + (W.length + (9 + (mid.length
      + (10 + R.length)))) := by
    rw [← List.length_drop, hxdrop]
    simp [List.length_append]
    omega
  have hp_le : p + g1 + m ≤ x.length := by omega
  have hGsplit : x.drop p = (locLit ++ W ++ lmOpen) ++ (mid ++ (lmClose ++ R)) := by
    rw [hxdrop]
    simp [List.append_assoc]
  have hGlen : (locLit ++ W ++ lmOpen).length = g1 := by
    rw [hg1]
    simp only [List.length_append]
  have h_take_b : x.take (p + g1) = x.take p ++ (locLit ++ W ++ lmOpen) := by
    rw [List.take_add]
    congr 1
    rw [hGsplit]
    exact List.take_left' hGlen
  have h_take_b_len : (x.take (p + g1)).length = p + g1 := by
    rw [List.length_take]
    omega
  have hF2 : patchLastmod today x
      = x.take (p + g1) ++ (today ++ (lmClose ++ R)) := by
    rw [hF, h_take_b]
  have hdrop_b : x.drop (p + g1) = mid ++ (lmClose ++ R) := by
    have h1 : x.drop (p + g1) = (x.drop p).drop g1 := by
      rw [List.drop_drop]
    rw [h1, hGsplit]
    exact List.drop_left' hGlen
  have hxeq : x = x.take (p + g1) ++ (mid ++ (lmClose ++ R)) := by
    conv_lhs => rw [← List.take_append_drop (p + g1) x, hdrop_b]
  intro q hq hpre
  rcases Nat.lt_or_ge (q + lit.length) (p + g1 + 1) with hz1 | hz1
  · -- entirely before the rewritten region: transfer to `x`
    have hdq : (patchLastmod today x).drop q
        = (x.take (p + g1)).drop q ++ (today ++ (lmClose ++ R)) := by
      rw [hF2]
      exact List.drop_append_of_le_length (by omega)
    rw [hdq] at hpre
    have h1 := prefix_append_of_le (by rw [List.length_drop, h_take_b_len]; omega) hpre
    have h2 := prefix_drop_of_prefix_take h1
    exact hxmin q (by omega) h2
  · rcases Nat.lt_or_ge q (p + g1) with hz2 | hz2
    · -- straddles the rewritten region: the `>` closing `<lastmod>` kills it
      have hb1 : 69 ≤ g1 := by omega
      have hgtb : (patchLastmod today x)[p + g1 - 1]? = some '>' := by
        have e1 : (patchLastmod today x)[p + g1 - 1]? = (x.take (p + g1))[p + g1 - 1]? := by
          rw [hF2]
          exact List.getElem?_append_left (by omega)
        have e2 : (x.take (p + g1))[p + g1 - 1]? = x[p + g1 - 1]? := by
          rw [List.getElem?_take, if_pos (by omega)]
        have e3 : x[p + g1 - 1]? = (x.drop p)[g1 - 1]? := by
          rw [List.getElem?_drop, show p + (g1 - 1) = p + g1 - 1 from by omega]
        rw [e1, e2, e3, hxdrop]
        rw [List.getElem?_append_right (by omega)]
        rw [List.getElem?_append_right (by omega)]
        rw [show g1 - 1 - locLit.length - W.length = 8 from by omega]
        rw [List.getElem?_append_left (by omega)]
        exact lmOpen_last_gt
      exact not_prefix_drop_cover_strict (by omega) (by omega) hgtb hlit_gt hpre
    · rcases Nat.lt_or_ge q (p + g1 + today.length) with hz3 | hz3
      · -- starts inside the rewritten date: digits and dashes are not `<`
        have hlt : q - (p + g1) < today.length := by omega
        have hchar : (patchLastmod today x)[q]? = some (today[q - (p + g1)]) := by
          rw [hF2, List.getElem?_append_right (by omega), h_take_b_len]
          rw [List.getElem?_append_left hlt]
          exact List.getElem?_eq_getElem hlt
        have hdq : ((patchLastmod today x).drop q)[0]? = some (today[q - (p + g1)]) := by
          rw [List.getElem?_drop, Nat.add_zero]
          exact hchar
        have hne : '<' ≠ today[q - (p + g1)] :=
          Ne.symm (digit_dash_ne_lt (htc _ (List.getElem_mem hlt)))
        exact not_prefix_at hlit_head hdq hne hpre
      · -- after the rewritten date: shift by the date length and transfer
        have hdq : (patchLastmod today x).drop q
            = (lmClose ++ R).drop (q - (p + g1) - today.length) := by
          conv_lhs => rw [hF2, show q = (x.take (p + g1)).length + (q - (p + g1))
            from by omega]
          rw [List.drop_append]
          conv_lhs => rw [show q - (p + g1) = today.length + (q - (p + g1) - today.length)
            from by omega]
          exact List.drop_append _
        have hxu : x.drop (p + g1 + m + (q - (p + g1) - today.length))
            = (lmClose ++ R).drop (q - (p + g1) - today.length) := by
          conv_lhs => rw [hxeq, show p + g1 + m + (q - (p + g1) - today.length)
            = (x.take (p + g1)).length + (m + (q - (p + g1) - today.length))
            from by omega]
          rw [List.drop_append]
          conv_lhs => rw [show m + (q - (p + g1) - today.length)
            = mid.length + (q - (p + g1) - today.length) from by omega]
          exact List.drop_append _
        rw [hdq, ← hxu] at hpre
        exact hxmin (p + g1 + m + (q - (p + g1) - today.length)) (by omega) hpre

/-- Re-running the sitemap rewrite on its own output changes nothing and
reports the file as already up to date, provided the original sitemap has
its markers in order and the generated entries contain no marker or
patch-target literal. -/
theorem updateSitemap_idem (rs : List Review) {today content : Str} {s e : Nat}
    (hs : firstIdx smStart content = some s)
    (he : firstIdx smEnd content = some e)
    (horder : s + smStart.length ≤ e)
    (HnoEM : firstIdx smEnd (sitemapEntries rs) = none)
    (HnoLoc : firstIdx locLit (sitemapEntries rs) = none)
    (ht0 : today ≠ [])
    (htc : ∀ c ∈ today, c.isDigit = true ∨ c = '-') :
    updateSitemapContent rs today (patchLastmod today (sitemapUpdated rs content s e))
      = some (patchLastmod today (sitemapUpdated rs content s e), false,
          "sitemap.xml already up to date".data) := by
  have hll := locLit_len
  have hlm := lmOpen_len
  have hlc := lmClose_len
  have hsml := smStart_len
  have hsel := smEnd_len
  have hsHit := (firstIdx_eq_some hs).1
  have hsMin := (firstIdx_eq_some hs).2
  have heHit := (firstIdx_eq_some he).1
  have heMin := (firstIdx_eq_some he).2
  have hupd := sitemapUpdated_decomp rs hsHit heHit
  have hs_le : s + smStart.length ≤ content.length := by
    have h1 := hsHit.length_le
    rw [List.length_drop] at h1
    omega
  have hXlen : (content.take s).length = s := by
    rw [List.length_take]
    omega
  have hQlen : (content.take s ++ smStart).length = s + smStart.length := by
    rw [List.length_append, hXlen]
  have hPQ : content.take s ++ smStart = content.take (s + smStart.length) := by
    rw [List.take_add]
    congr 1
    exact List.prefix_iff_eq_take.1 hsHit
  have hupdQ : sitemapUpdated rs content s e
      = content.take (s + smStart.length)
        ++ (bodyB rs ++ (smEnd ++ content.drop (e + smEnd.length))) := by
    rw [hupd, hPQ]
  have hpatchF := patchLastmod_idem (sitemapUpdated rs content s e) ht0 htc
  cases hscan : scanFirst patchHere (sitemapUpdated rs content s e) with
  | none =>
    have hFid := patchLastmod_eq_of_none today hscan
    obtain ⟨hm1, hm2⟩ := hmin_content rs (content.drop (e + smEnd.length))
      hs he horder hs_le
    rw [hFid, hupd]
    rw [hupd] at hFid
    exact run2_out rs today (content.take s) (content.drop (e + smEnd.length))
      hm1 hm2 HnoEM hFid
  | some trip =>
    obtain ⟨p, g1, m⟩ := trip
    obtain ⟨hhit, hmin⟩ := scanFirst_eq_some hscan
    obtain ⟨W, mid, R, hdropP, hW, hmid0, hmidc, hg1, hm⟩ := patchHere_some_decomp hhit
    have hg1' : g1 = 60 + W.length + 9 := by omega
    have hd_today : '$' ∉ today := fun hmem =>
      absurd rfl (digit_dash_ne_dollar (htc _ hmem))
    have hF := patchLastmod_shape hscan hdropP hg1 hm hd_today
    have hupdslen : (sitemapUpdated rs content s e).length - p
        = 60 + (W.length + (9 + (mid.length + (10 + R.length)))) := by
      rw [← List.length_drop, hdropP]
      simp [List.length_append]
      omega
    rcases patch_zone rs hs he HnoLoc hscan with hend | hp2
    · -- the patch landed strictly before the start marker
      have hmend : m = mid.length := hm
      have hp_s : p + (g1 + m + lmClose.length) ≤ s := hend
      have hRdef : (sitemapUpdated rs content s e).drop (p + (g1 + m + lmClose.length))
          = R := by
        have h1 : (sitemapUpdated rs content s e).drop (p + (g1 + m + lmClose.length))
            = ((sitemapUpdated rs content s e).drop p).drop (g1 + m + lmClose.length) := by
          rw [List.drop_drop]
        rw [h1, hdropP, ← List.append_assoc, ← List.append_assoc, ← List.append_assoc,
          ← List.append_assoc]
        exact List.drop_left' (by simp [List.length_append]; omega)
      have hdrop_end : (sitemapUpdated rs content s e).drop (p + (g1 + m + lmClose.length))
          = ((content.take s).drop (p + (g1 + m + lmClose.length)) ++ smStart)
            ++ (bodyB rs ++ (smEnd ++ content.drop (e + smEnd.length))) := by
        rw [hupd, List.drop_append_of_le_length (by omega),
          List.drop_append_of_le_length (by omega)]
      have hReq : R = ((content.take s).drop (p + (g1 + m + lmClose.length)) ++ smStart)
          ++ (bodyB rs ++ (smEnd ++ content.drop (e + smEnd.length))) := by
        rw [← hRdef, hdrop_end]
      have hTakeP : (sitemapUpdated rs content s e).take p = (content.take s).take p := by
        rw [hupd, List.take_append_of_le_length (by omega),
          List.take_append_of_le_length (by omega)]
      have hFshape : patchLastmod today (sitemapUpdated rs content s e)
          = (((content.take s).take p ++ ((locLit ++ W ++ lmOpen)
              ++ (today ++ (lmClose ++ (content.take s).drop
                (p + (g1 + m + lmClose.length)))))) ++ smStart)
            ++ (bodyB rs ++ (smEnd ++ content.drop (e + smEnd.length))) := by
        rw [hF, hTakeP, hReq]
        simp [List.append_assoc]
      have hX1len : ((content.take s).take p ++ ((locLit ++ W ++ lmOpen)
          ++ (today ++ (lmClose ++ (content.take s).drop
            (p + (g1 + m + lmClose.length)))))).length
          = p + (g1 + (today.length + (lmClose.length
              + (s - (p + (g1 + m + lmClose.length)))))) := by
        simp only [List.length_append, List.length_take, List.length_drop, hXlen]
        omega
      have hxminS : ∀ u, u + smStart.length ≤ (s + 46 - m) + m →
          ¬ smStart <+: (sitemapUpdated rs content s e).drop u := by
        intro u hu hpre
        rw [hupdQ] at hpre
        have htr := occ_transfer hpre (by omega) hs_le
        exact hsMin u (by omega) htr
      have hxminE : ∀ u, u + smEnd.length ≤ (s + 47 - m) + m →
          ¬ smEnd <+: (sitemapUpdated rs content s e).drop u := by
        intro u hu hpre
        rw [hupdQ] at hpre
        have htr := occ_transfer hpre (by omega) hs_le
        exact heMin u (by omega) htr
      have hminS' := patched_min (sitemapUpdated rs content s e) today smStart
        (s + 46 - m) hscan hdropP hg1 hm htc smStart_head
        (fun d hd => smStart_gt_late d (by omega)) (by omega) hxminS
      have hminE' := patched_min (sitemapUpdated rs content s e) today smEnd
        (s + 47 - m) hscan hdropP hg1 hm htc smEnd_head
        (fun d hd => smEnd_gt_late d (by omega)) (by omega) hxminE
      rw [hFshape] at hpatchF ⊢
      apply run2_out rs today _ _ ?_ ?_ HnoEM hpatchF
      · intro q hq hpre
        rw [← hFshape] at hpre
        apply hminS' q ?_ hpre
        rw [hX1len] at hq
        omega
      · intro q hq hpre
        rw [← hFshape] at hpre
        apply hminE' q ?_ hpre
        rw [List.length_append, hX1len, hsml] at hq
        omega
    · -- the patch landed strictly after the end marker
      have hTakeP2 : (sitemapUpdated rs content s e).take p
          = (content.take s ++ smStart)
            ++ (bodyB rs ++ (smEnd ++ (content.drop (e + smEnd.length)).take
              (p - (s + smStart.length) - (bodyB rs).length - smEnd.length))) := by
        conv_lhs => rw [hupd, show p = (content.take s ++ smStart).length
          + (p - (s + smStart.length)) from by rw [hQlen]; omega]
        rw [List.take_append]
        conv_lhs => rw [show p - (s + smStart.length) = (bodyB rs).length
          + (p - (s + smStart.length) - (bodyB rs).length) from by omega]
        rw [List.take_append]
        conv_lhs => rw [show p - (s + smStart.length) - (bodyB rs).length
          = smEnd.length + (p - (s + smStart.length) - (bodyB rs).length
            - smEnd.length) from by omega]
        rw [List.take_append]
      have hFshape : patchLastmod today (sitemapUpdated rs content s e)
          = (content.take s ++ smStart)
            ++ (bodyB rs ++ (smEnd ++ ((content.drop (e + smEnd.length)).take
                (p - (s + smStart.length) - (bodyB rs).length - smEnd.length)
              ++ ((locLit ++ W ++ lmOpen) ++ (today ++ (lmClose ++ R)))))) := by
        rw [hF, hTakeP2]
        simp [List.append_assoc]
      obtain ⟨hm1, hm2⟩ := hmin_content rs ((content.drop (e + smEnd.length)).take
          (p - (s + smStart.length) - (bodyB rs).length - smEnd.length)
        ++ ((locLit ++ W ++ lmOpen) ++ (today ++ (lmClose ++ R))))
        hs he horder hs_le
      rw [hFshape] at hpatchF ⊢
      exact run2_out rs today (content.take s) _ hm1 hm2 HnoEM hpatchF

theorem updateSitemapContent_run1 (rs : List Review) (today : Str) {content : Str} {s e : Nat}
    (hs : firstIdx smStart content = some s) (he : firstIdx smEnd content = some e) :
    ∃ ch msg, updateSitemapContent rs today content
      = some (patchLastmod today (sitemapUpdated rs content s e), ch, msg) := by
  unfold updateSitemapContent
  rw [hs, he]
  dsimp only
  by_cases h : patchLastmod today (sitemapUpdated rs content s e) = content
  · exact ⟨false, _, by rw [if_pos h]⟩
  · exact ⟨true, _, by rw [if_neg h]⟩

/-- Running the whole script a second time on its own outputs — same review
files, same git dates, same calendar day — changes nothing and reports both
files as already up to date. -/
theorem C2_run_twice (w : SyncWorld) (i len s e : Nat)
    (hidx : matchIM w.indexContent = some (i, len))
    (hsm : firstIdx smStart w.sitemapContent = some s)
    (hse : firstIdx smEnd w.sitemapContent = some e)
    (horder : s + smStart.length ≤ e)
    (Hc1 : findEnd (blockBody (extractedReviews w) ++ endTokFull)
      = some ((blockBody (extractedReviews w)).length, 22))
    (Hd : '$' ∉ newBlock (extractedReviews w))
    (HnoEM : firstIdx smEnd (sitemapEntries (extractedReviews w)) = none)
    (HnoLoc : firstIdx locLit (sitemapEntries (extractedReviews w)) = none)
    (ht0 : w.today ≠ [])
    (htc : ∀ c ∈ w.today, c.isDigit = true ∨ c = '-') :
    (runSync w).exitCode = 0
    ∧ ∀ w2 : SyncWorld, w2.files = w.files → w2.gitOut = w.gitOut →
        w2.today = w.today → w2.indexContent = (runSync w).indexOut →
        w2.sitemapContent = (runSync w).sitemapOut →
        (runSync w2).exitCode = 0
        ∧ (runSync w2).indexWritten = false
        ∧ (runSync w2).sitemapWritten = false
        ∧ (runSync w2).indexOut = (runSync w).indexOut
        ∧ (runSync w2).sitemapOut = (runSync w).sitemapOut
        ∧ ("index.html already up to date").data ∈ (runSync w2).stdout
        ∧ ("sitemap.xml already up to date").data ∈ (runSync w2).stdout
        ∧ ("No changes needed").data ∈ (runSync w2).stdout := by
  obtain ⟨ch1, msg1, hui⟩ := updateIndexContent_run1 hidx Hd
  obtain ⟨ch2, msg2, hus⟩ :=
    updateSitemapContent_run1 (extractedReviews w) w.today hsm hse
  have hE0 : (runSync w).exitCode = 0
      ∧ (runSync w).indexOut
          = w.indexContent.take i ++ newBlock (extractedReviews w)
            ++ w.indexContent.drop (i + len)
      ∧ (runSync w).sitemapOut
          = patchLastmod w.today
              (sitemapUpdated (extractedReviews w) w.sitemapContent s e) := by
    unfold runSync
    dsimp only
    rw [hui, hus]
    exact ⟨rfl, rfl, rfl⟩
  refine ⟨hE0.1, ?_⟩
  intro w2 hf hg ht hic hsc
  have hrs : extractedReviews w2 = extractedReviews w := by
    unfold extractedReviews reviewFilesOf
    rw [hf, hg, ht]
  have hic2 : w2.indexContent
      = w.indexContent.take i ++ newBlock (extractedReviews w)
        ++ w.indexContent.drop (i + len) := by
    rw [hic, hE0.2.1]
  have hsc2 : w2.sitemapContent
      = patchLastmod w.today
          (sitemapUpdated (extractedReviews w) w.sitemapContent s e) := by
    rw [hsc, hE0.2.2]
  have hii := updateIndex_idem hidx Hc1 Hd
  have hss := updateSitemap_idem (extractedReviews w) hsm hse horder HnoEM HnoLoc ht0 htc
  rw [hE0.2.1, hE0.2.2]
  unfold runSync
  dsimp only
  rw [hrs, hic2, hsc2, ht, hii, hss]
  refine ⟨rfl, rfl, rfl, rfl, rfl, ?_, ?_, ?_⟩
  · simp
  · simp
  · simp

/-! ### Order lemmas for the date sort -/

/-- `a` is not dated strictly before `b` (descending order relation). -/
def dateGe (a b : Review) : Prop := strLt a.date b.date = false

theorem strLt_asymm : ∀ (a b : Str), strLt a b = true → strLt b a = false := by
  intro a
  induction a with
  | nil =>
    intro b h
    cases b with
    | nil => simp [strLt] at h
    | cons y ys => simp [strLt]
  | cons x xs ih =>
    intro b h
    cases b with
    | nil => simp [strLt] at h
    | cons y ys =>
      rw [strLt] at h ⊢
      by_cases hxy : x < y
      · have hyx : ¬ y < x := lt_asymm hxy
        rw [if_neg hyx, if_pos hxy]
      · rw [if_neg hxy] at h
        by_cases hyx : y < x
        · rw [if_pos hyx] at h; simp at h
        · rw [if_neg hyx] at h
          rw [if_neg hyx, if_neg hxy]
          exact ih ys h

theorem strLt_neg_trans : ∀ (a b c : Str), strLt a b = false → strLt b c = false →
    strLt a c = false := by
  intro a
  induction a with
  | nil =>
    intro b c h1 h2
    cases b with
    | nil =>
      cases c with
      | nil => rfl
      | cons z zs => simp [strLt] at h2
    | cons y ys => simp [strLt] at h1
  | cons x xs ih =>
    intro b c h1 h2
    cases c with
    | nil => cases b <;> rfl
    | cons z zs =>
      cases b with
      | nil => simp [strLt] at h2
      | cons y ys =>
        rw [strLt] at h1 h2 ⊢
        by_cases hxy : x < y
        · rw [if_pos hxy] at h1; simp at h1
        · rw [if_neg hxy] at h1
          by_cases hyz : y < z
          · rw [if_pos hyz] at h2; simp at h2
          · rw [if_neg hyz] at h2
            have hyx : y ≤ x := not_lt.1 hxy
            have hzy : z ≤ y := not_lt.1 hyz
            have hxz : ¬ x < z := not_lt.2 (hzy.trans hyx)
            rw [if_neg hxz]
            by_cases hzx : z < x
            · rw [if_pos hzx]
            · rw [if_neg hzx]
              have hxz' : x = z := le_antisymm (not_lt.1 hzx) (hzy.trans hyx)
              have hxy' : x = y := le_antisymm (by rw [hxz']; exact hzy) hyx
              by_cases hyx' : y < x
              · rw [hxy'] at hyx'; exact absurd hyx' (lt_irrefl y)
              · rw [if_neg hyx'] at h1
                by_cases hzy' : z < y
                · rw [← hxz', ← hxy'] at hzy'; exact absurd hzy' (lt_irrefl x)
                · rw [if_neg hzy'] at h2
                  exact ih ys zs h1 h2

theorem mem_insertDesc {r x : Review} :
    ∀ {l : List Review}, x ∈ insertDesc r l → x = r ∨ x ∈ l := by
  intro l
  induction l with
  | nil =>
    intro h
    simp [insertDesc] at h
    exact Or.inl h
  | cons h t ih =>
    intro hx
    rw [insertDesc] at hx
    by_cases hlt : strLt r.date h.date
    · rw [if_pos hlt] at hx
      rcases List.mem_cons.1 hx with h1 | h1
      · exact Or.inr (List.mem_cons.2 (Or.inl h1))
      · rcases ih h1 with h2 | h2
        · exact Or.inl h2
        · exact Or.inr (List.mem_cons.2 (Or.inr h2))
    · rw [if_neg hlt] at hx
      rcases List.mem_cons.1 hx with h1 | h1
      · exact Or.inl h1
      · exact Or.inr h1

theorem insertDesc_sorted {r : Review} :
    ∀ {l : List Review}, l.Pairwise dateGe → (insertDesc r l).Pairwise dateGe := by
  intro l
  induction l with
  | nil => intro; simp [insertDesc, dateGe]
  | cons h t ih =>
    intro hp
    rcases List.pairwise_cons.1 hp with ⟨hh, ht⟩
    rw [insertDesc]
    by_cases hlt : strLt r.date h.date
    · rw [if_pos hlt]
      apply List.pairwise_cons.2
      refine ⟨?_, ih ht⟩
      intro x hx
      rcases mem_insertDesc hx with hxr | hxl
      · subst hxr
        exact strLt_asymm _ _ hlt
      · exact hh x hxl
    · rw [if_neg hlt]
      apply List.pairwise_cons.2
      refine ⟨?_, hp⟩
      intro x hx
      have hrh : strLt r.date h.date = false := by
        exact Bool.eq_false_iff.2 hlt
      rcases List.mem_cons.1 hx with h1 | h1
      · subst h1; exact hrh
      · exact strLt_neg_trans _ _ _ hrh (hh x h1)

theorem sortDesc_sorted (l : List Review) : (sortDesc l).Pairwise dateGe := by
  induction l with
  | nil => simp [sortDesc]
  | cons x t ih => exact insertDesc_sorted ih

/-! ### Concrete worlds used by claim instances -/

def sampleIndex : Str :=
  ("<html><script>\n    const reviewsData = [\n      \x7b title: \"Old\" \x7d\n    ]; // END REVIEWS DATA\n</script></html>").data

def sampleSitemap : Str :=
  ("<?xml version=\"1.0\"?>\n<urlset>\n  <url>\n    <loc>https://smartbuyreviews.co.uk/regions/en/reviews/</loc>\n    <lastmod>2024-01-01</lastmod>\n  </url>\n  <!-- Reviews - AUTO-GENERATED SECTION START -->\n  <!-- Reviews - AUTO-GENERATED SECTION END -->\n</urlset>").data

def titledHtml (t : Str) : Str :=
  ("<html><title>").data ++ t ++ (" Review - Smart Buy Reviews UK 2026</title></html>").data

def c5World : SyncWorld := {
  files := [(("a.html").data, titledHtml ("Alpha").data),
            (("b.html").data, titledHtml ("Beta").data),
            (("c.html").data, titledHtml ("Gamma").data)]
  gitOut := fun n =>
    if n = ("a.html").data then some ("2025-01-05T00:00:00Z").data
    else if n = ("b.html").data then some ("2026-03-01T00:00:00Z").data
    else some ("2024-11-30T00:00:00Z").data
  today := ("2026-02-03").data
  indexContent := sampleIndex
  sitemapContent := sampleSitemap }

/-- The world of a second run: same files, git dates and day as `c5World`,
with the first run's outputs on disk. -/
def c2World2 : SyncWorld :=
  { files := c5World.files, gitOut := c5World.gitOut, today := c5World.today,
    indexContent := (runSync c5World).indexOut,
    sitemapContent := (runSync c5World).sitemapOut }

/-- A review page whose title is exactly the listing block's terminator
comment, defeating the lazy `[\s\S]*?` match on the second run. -/
def evilHtml : Str := ("<html><title>]; // END REVIEWS DATA</title></html>").data

def evilWorld : SyncWorld := {
  files := [(("evil.html").data, evilHtml)],
  gitOut := fun f =>
    if f = ("evil.html").data then some (("2025-01-05T10:00:00+00:00").data) else none,
  today := ("2026-02-03").data,
  indexContent := sampleIndex,
  sitemapContent := sampleSitemap }

def evilWorld2 : SyncWorld :=
  { files := evilWorld.files, gitOut := evilWorld.gitOut, today := evilWorld.today,
    indexContent := (runSync evilWorld).indexOut,
    sitemapContent := (runSync evilWorld).sitemapOut }

/-- C5: the metadata records emitted to both generated artifacts are
ordered descending by their date strings under lexicographic comparison
(newest first): the sorted collection is pairwise non-increasing, and for
review files with dates 2025-01-05, 2026-03-01, 2024-11-30 both the listing
data block and the sitemap section list them as 2026-03-01, 2025-01-05,
2024-11-30. -/
theorem C5_sort_order :
    (∀ l : List Review, (sortDesc l).Pairwise dateGe)
    ∧ (extractedReviews c5World).map (fun r => r.date)
        = [("2026-03-01").data, ("2025-01-05").data, ("2024-11-30").data]
    ∧ firstIdx ("2026-03-01").data (runSync c5World).indexOut = some 199
    ∧ firstIdx ("2025-01-05").data (runSync c5World).indexOut = some 379
    ∧ firstIdx ("2024-11-30").data (runSync c5World).indexOut = some 559
    ∧ firstIdx ("2026-03-01").data (runSync c5World).sitemapOut = some 289
    ∧ firstIdx ("2025-01-05").data (runSync c5World).sitemapOut = some 477
    ∧ firstIdx ("2024-11-30").data (runSync c5World).sitemapOut = some 665 := by
  exact ⟨sortDesc_sorted, by decide, by decide, by decide, by decide, by decide,
    by decide, by decide⟩

theorem updateIndexContent_isSome (rs : List Review) {content : Str} {p : Nat × Nat}
    (h : matchIM content = some p) : (updateIndexContent rs content).isSome := by
  unfold updateIndexContent
  rw [h]
  dsimp only
  split <;> simp

theorem updateSitemapContent_none (rs : List Review) (today : Str) {content : Str}
    (h : firstIdx smStart content = none ∨ firstIdx smEnd content = none) :
    updateSitemapContent rs today content = none := by
  unfold updateSitemapContent
  rcases h with h | h
  · rw [h]
  · rw [h]
    cases firstIdx smStart content <;> rfl

theorem updateSitemapContent_isSome (rs : List Review) (today : Str) {content : Str} {s e : Nat}
    (hs : firstIdx smStart content = some s) (he : firstIdx smEnd content = some e) :
    (updateSitemapContent rs today content).isSome := by
  unfold updateSitemapContent
  rw [hs, he]
  dsimp only
  split <;> simp

def c1World : SyncWorld := {
  files := [(("a.html").data, titledHtml ("Alpha").data)]
  gitOut := fun _ => some ("2025-01-05T00:00:00Z").data
  today := ("2026-02-03").data
  indexContent := sampleIndex
  sitemapContent := ("<urlset>no markers here</urlset>").data }

def c1WorldA : SyncWorld := {
  files := [(("a.html").data, titledHtml ("Alpha").data)]
  gitOut := fun _ => some ("2025-01-05T00:00:00Z").data
  today := ("2026-02-03").data
  indexContent := ("<html>no data block</html>").data
  sitemapContent := sampleSitemap }

/-- C1 counterexample: a run whose listing page has its markers but whose
sitemap lacks them exits non-zero with a diagnostic — yet the listing page
HAS been written (the claim says no output file is written on such runs). -/
theorem C1_counterexample :
    (runSync c1World).exitCode = 1
    ∧ (runSync c1World).stderr = [("ERROR: Could not find sitemap markers").data]
    ∧ (runSync c1World).indexWritten = true
    ∧ (runSync c1World).indexOut ≠ c1World.indexContent := by
  exact ⟨by decide, by decide, by decide, by decide⟩

/-- C1 (amended): if the listing page's markers are absent the run writes a
diagnostic, exits non-zero and writes nothing at all; if the listing
markers are present but the sitemap's markers are absent the run writes a
diagnostic, exits non-zero and writes nothing to the sitemap — although the
listing page, processed first, may already have been written; in every
other run the process exits with status zero and no diagnostic, regardless
of whether any content changed. -/
theorem C1_marker_fatality (w : SyncWorld) :
    (matchIM w.indexContent = none →
        (runSync w).exitCode = 1
        ∧ (runSync w).indexOut = w.indexContent
        ∧ (runSync w).sitemapOut = w.sitemapContent
        ∧ (runSync w).indexWritten = false
        ∧ (runSync w).sitemapWritten = false
        ∧ (runSync w).stderr
            = [("ERROR: Could not find reviewsData marker in index.html").data])
    ∧ (∀ p : Nat × Nat, matchIM w.indexContent = some p →
        (firstIdx smStart w.sitemapContent = none ∨ firstIdx smEnd w.sitemapContent = none) →
        (runSync w).exitCode = 1
        ∧ (runSync w).sitemapOut = w.sitemapContent
        ∧ (runSync w).sitemapWritten = false
        ∧ (runSync w).stderr = [("ERROR: Could not find sitemap markers").data])
    ∧ (∀ (p : Nat × Nat) (s e : Nat), matchIM w.indexContent = some p →
        firstIdx smStart w.sitemapContent = some s →
        firstIdx smEnd w.sitemapContent = some e →
        (runSync w).exitCode = 0 ∧ (runSync w).stderr = []) := by
  refine ⟨?_, ?_, ?_⟩
  · intro h
    have hui : updateIndexContent (extractedReviews w) w.indexContent = none := by
      unfold updateIndexContent
      rw [h]
    unfold runSync
    dsimp only
    rw [hui]
    exact ⟨rfl, rfl, rfl, rfl, rfl, rfl⟩
  · intro p hm hsm
    have hui := updateIndexContent_isSome (extractedReviews w) hm
    rcases Option.isSome_iff_exists.1 hui with ⟨trip, htrip⟩
    have husm := updateSitemapContent_none (extractedReviews w) w.today hsm
    unfold runSync
    dsimp only
    rw [htrip, husm]
    exact ⟨rfl, rfl, rfl, rfl⟩
  · intro p s e hm hs he
    have hui := updateIndexContent_isSome (extractedReviews w) hm
    rcases Option.isSome_iff_exists.1 hui with ⟨trip, htrip⟩
    have husm := updateSitemapContent_isSome (extractedReviews w) w.today hs he
    rcases Option.isSome_iff_exists.1 husm with ⟨trip2, htrip2⟩
    unfold runSync
    dsimp only
    rw [htrip, htrip2]
    exact ⟨rfl, rfl⟩

/-- C1 witness: the amended theorem applied at three concrete worlds,
discharging each hypothesis there. -/
theorem C1_marker_fatality_witness :
    ((runSync c1WorldA).exitCode = 1
      ∧ (runSync c1WorldA).indexOut = c1WorldA.indexContent
      ∧ (runSync c1WorldA).sitemapOut = c1WorldA.sitemapContent
      ∧ (runSync c1WorldA).indexWritten = false
      ∧ (runSync c1WorldA).sitemapWritten = false
      ∧ (runSync c1WorldA).stderr
          = [("ERROR: Could not find reviewsData marker in index.html").data])
    ∧ ((runSync c1World).exitCode = 1
      ∧ (runSync c1World).sitemapOut = c1World.sitemapContent
      ∧ (runSync c1World).sitemapWritten = false
      ∧ (runSync c1World).stderr = [("ERROR: Could not find sitemap markers").data])
    ∧ ((runSync c5World).exitCode = 0 ∧ (runSync c5World).stderr = []) :=
  ⟨(C1_marker_fatality c1WorldA).1 (by decide),
   (C1_marker_fatality c1World).2.1 (19, 71) (by decide) (by decide),
   (C1_marker_fatality c5World).2.2 (19, 71) 149 199 (by decide) (by decide) (by decide)⟩

def c4Desc : Str := ("Honest review of A. ").data ++ List.replicate 110 'x'

def c4Html : Str :=
  ("<title>T</title><meta name=\"description\" content=\"").data ++ c4Desc ++ ("\">").data

/-- C4 counterexample: a review page whose meta description has 130 (at
least 121) characters yields an excerpt of 110 characters — not exactly 120
ending in `...` — because the leading "Honest review of … ." phrase is
stripped before the length test. -/
theorem C4_counterexample :
    c4Desc.length = 130
    ∧ (extractMeta ("p.html").data c4Html none ("2026-01-01").data).map
        (fun r => r.excerpt.length) = some 110 := by
  exact ⟨by decide, by decide⟩

/-- C4 (amended): the excerpt is the whitespace-normalized description with
a leading case-insensitive "Honest review of … ." phrase stripped; if
stripping yields the empty string the normalized original description is
used instead; any surviving text longer than 120 characters is truncated to
its first 117 characters plus `...`.  Consequently whenever the surviving
text exceeds 120 characters — not merely whenever the description has at
least 121 — the stored excerpt is exactly 120 characters whose last three
are `...`. -/
theorem C4_excerpt_truncation (desc : Str) :
    (stripHonest (trimStr (collapseWs desc)) ≠ [] →
        excerptOfDesc desc =
          (if 120 < (stripHonest (trimStr (collapseWs desc))).length
           then (stripHonest (trimStr (collapseWs desc))).take 117 ++ ("...").data
           else stripHonest (trimStr (collapseWs desc))))
    ∧ (stripHonest (trimStr (collapseWs desc)) = [] →
        excerptOfDesc desc =
          (if 120 < (trimStr (collapseWs desc)).length
           then (trimStr (collapseWs desc)).take 117 ++ ("...").data
           else trimStr (collapseWs desc)))
    ∧ (120 < (if stripHonest (trimStr (collapseWs desc)) = []
              then trimStr (collapseWs desc)
              else stripHonest (trimStr (collapseWs desc))).length →
        (excerptOfDesc desc).length = 120
        ∧ (excerptOfDesc desc).drop 117 = ("...").data) := by
  have hdef : excerptOfDesc desc =
      (if 120 < (if stripHonest (trimStr (collapseWs desc)) = []
                 then trimStr (collapseWs desc)
                 else stripHonest (trimStr (collapseWs desc))).length
       then (if stripHonest (trimStr (collapseWs desc)) = []
             then trimStr (collapseWs desc)
             else stripHonest (trimStr (collapseWs desc))).take 117 ++ ("...").data
       else (if stripHonest (trimStr (collapseWs desc)) = []
             then trimStr (collapseWs desc)
             else stripHonest (trimStr (collapseWs desc)))) := rfl
  refine ⟨?_, ?_, ?_⟩
  · intro hne
    rw [hdef, if_neg hne]
  · intro he
    rw [hdef, if_pos he]
  · intro hlong
    set e2 := (if stripHonest (trimStr (collapseWs desc)) = []
               then trimStr (collapseWs desc)
               else stripHonest (trimStr (collapseWs desc))) with he2
    rw [hdef, if_pos hlong]
    constructor
    · rw [List.length_append, List.length_take]
      have : min 117 e2.length = 117 := by omega
      rw [this]
      rfl
    · apply List.drop_left'
      rw [List.length_take]
      omega

/-- C4 witness: the amended theorem applied at concrete descriptions,
discharging each hypothesis there. -/
theorem C4_excerpt_truncation_witness :
    excerptOfDesc (List.replicate 130 'y')
      = (if 120 < (stripHonest (trimStr (collapseWs (List.replicate 130 'y')))).length
         then (stripHonest (trimStr (collapseWs (List.replicate 130 'y')))).take 117
            ++ ("...").data
         else stripHonest (trimStr (collapseWs (List.replicate 130 'y'))))
    ∧ (excerptOfDesc (List.replicate 130 'y')).length = 120
    ∧ (excerptOfDesc (List.replicate 130 'y')).drop 117 = ("...").data :=
  ⟨(C4_excerpt_truncation (List.replicate 130 'y')).1 (by decide),
   ((C4_excerpt_truncation (List.replicate 130 'y')).2.2 (by decide)).1,
   ((C4_excerpt_truncation (List.replicate 130 'y')).2.2 (by decide)).2⟩

/-- C7 counterexample: with active language `es` and a stored URL holding
two regional segments, only the first is replaced; the rendered link still
contains `/regions/fr/`, so it does not carry the visitor's language code
in place of every stored code. -/
theorem C7_counterexample :
    V31.getLocalizedUrl ("es").data ("/regions/en/x/regions/fr/a.html").data
      = ("/regions/es/x/regions/fr/a.html").data
    ∧ containsSub ("/regions/fr/").data
        (V31.getLocalizedUrl ("es").data ("/regions/en/x/regions/fr/a.html").data) = true
    ∧ V40.getLocalizedUrl ("es").data ("/regions/en/x/regions/fr/a.html").data
      = ("/regions/es/x/regions/fr/a.html").data := by
  refine ⟨by decide, by decide, by decide⟩

/-- C7 (amended): for every review entry rendered into the Reviews
dropdown, the FIRST `/regions/{2-letter-code}/` segment of the stored URL
is replaced with `/regions/{currentLang}/` (for a language code without
`$`); a URL without such a segment is unchanged.  In particular, for the
canonical single-segment stored URLs, the rendered link carries the active
language: for `es` and `/regions/en/reviews/widget.html` the target is
`/regions/es/reviews/widget.html`. -/
theorem C7_review_url_localization :
    (∀ (lang url : Str) (i : Nat) (code : Str),
        scanFirst regionHere url = some (i, code) → '$' ∉ lang →
        V31.getLocalizedUrl lang url
            = url.take i ++ ("/regions/".data ++ lang ++ "/".data) ++ url.drop (i + 12)
        ∧ V40.getLocalizedUrl lang url
            = url.take i ++ ("/regions/".data ++ lang ++ "/".data) ++ url.drop (i + 12))
    ∧ (∀ (lang url : Str), scanFirst regionHere url = none →
        V31.getLocalizedUrl lang url = url ∧ V40.getLocalizedUrl lang url = url)
    ∧ V31.getLocalizedUrl ("es").data ("/regions/en/reviews/widget.html").data
        = ("/regions/es/reviews/widget.html").data
    ∧ V40.getLocalizedUrl ("es").data ("/regions/en/reviews/widget.html").data
        = ("/regions/es/reviews/widget.html").data := by
  refine ⟨?_, ?_, by decide, by decide⟩
  · intro lang url i code hm hd
    refine ⟨getLocalizedUrl_eq hm hd, ?_⟩
    rw [v40_localize_eq]
    exact getLocalizedUrl_eq hm hd
  · intro lang url h
    constructor
    · unfold V31.getLocalizedUrl; rw [h]
    · unfold V40.getLocalizedUrl; rw [h]

/-- C7 witness: the amended theorem applied at a concrete input. -/
theorem C7_review_url_localization_witness :
    V31.getLocalizedUrl ("it").data ("/regions/en/reviews/toaster.html").data
      = ("/regions/en/reviews/toaster.html").data.take 0
        ++ (("/regions/").data ++ ("it").data ++ ("/").data)
        ++ ("/regions/en/reviews/toaster.html").data.drop 12
    ∧ V31.getLocalizedUrl ("it").data ("/about.html").data = ("/about.html").data :=
  ⟨(C7_review_url_localization.1 ("it").data ("/regions/en/reviews/toaster.html").data 0
      ("en").data (by decide) (by decide)).1,
   (C7_review_url_localization.2.1 ("it").data ("/about.html").data (by decide)).1⟩

/-- C8: the language-switch operation persists the target as the stored
`preferredLanguage`; if the current page path contains a `/regions/`
segment it performs a full navigation to the path with the
`/regions/{2-letter-code}/` segment substituted by the target code,
otherwise it performs no navigation and re-renders in place with the new
active language.  Concretely: `/regions/de/reviews/y.html` with target `it`
navigates to `/regions/it/reviews/y.html`; `/about.html` re-renders in
place.  (Both variants.) -/
theorem C8_language_switch :
    (∀ (path lang : Str), (V31.switchLanguage path lang).storedPref = lang
        ∧ (V40.switchLanguage path lang).storedPref = lang)
    ∧ (∀ (path lang : Str) (i : Nat) (code : Str),
        containsSub ("/regions/").data path = true →
        scanFirst regionHere path = some (i, code) → '$' ∉ lang →
        (V31.switchLanguage path lang).outcome
            = .navigate (path.take i ++ ("/regions/".data ++ lang ++ "/".data) ++ path.drop (i + 12))
        ∧ (V40.switchLanguage path lang).outcome
            = .navigate (path.take i ++ ("/regions/".data ++ lang ++ "/".data) ++ path.drop (i + 12)))
    ∧ (∀ (path lang : Str), containsSub ("/regions/").data path = false →
        (V31.switchLanguage path lang).outcome = .rerenderWith lang
        ∧ (V40.switchLanguage path lang).outcome = .rerenderWith lang)
    ∧ V31.switchLanguage ("/regions/de/reviews/y.html").data ("it").data
        = { storedPref := ("it").data, outcome := .navigate ("/regions/it/reviews/y.html").data }
    ∧ V40.switchLanguage ("/regions/de/reviews/y.html").data ("it").data
        = { storedPref := ("it").data, outcome := .navigate ("/regions/it/reviews/y.html").data }
    ∧ V31.switchLanguage ("/about.html").data ("it").data
        = { storedPref := ("it").data, outcome := .rerenderWith ("it").data }
    ∧ V40.switchLanguage ("/about.html").data ("it").data
        = { storedPref := ("it").data, outcome := .rerenderWith ("it").data } := by
  refine ⟨fun _ _ => ⟨rfl, rfl⟩, ?_, ?_, by decide, by decide, by decide, by decide⟩
  · intro path lang i code hc hm hd
    have hnav : ∀ r : SwitchResult,
        r = V31.switchLanguage path lang → r.outcome
          = .navigate (path.take i ++ ("/regions/".data ++ lang ++ "/".data) ++ path.drop (i + 12)) := by
      intro r hr
      subst hr
      unfold V31.switchLanguage
      dsimp only
      rw [if_pos hc, hm]
      dsimp only
      unfold replaceAt regionLen
      rw [substDollar_no_dollar (tpl_no_dollar hd)]
    exact ⟨hnav _ rfl, hnav _ rfl⟩
  · intro path lang hc
    constructor
    · unfold V31.switchLanguage
      dsimp only
      rw [if_neg (by simp [hc])]
    · unfold V40.switchLanguage
      dsimp only
      rw [if_neg (by simp [hc])]

/-- C8 witness: the theorem applied at concrete inputs. -/
theorem C8_language_switch_witness :
    (V31.switchLanguage ("/regions/fr/reviews/z.html").data ("nl").data).outcome
      = .navigate (("/regions/fr/reviews/z.html").data.take 0
          ++ (("/regions/").data ++ ("nl").data ++ ("/").data)
          ++ ("/regions/fr/reviews/z.html").data.drop 12)
    ∧ (V40.switchLanguage ("/").data ("nl").data).outcome = .rerenderWith ("nl").data :=
  ⟨(C8_language_switch.2.1 ("/regions/fr/reviews/z.html").data ("nl").data 0 ("fr").data
      (by decide) (by decide) (by decide)).1,
   (C8_language_switch.2.2.1 ("/").data ("nl").data (by decide)).2⟩

/-- C10: provided the active language code is exactly two lowercase ASCII
letters, `getLocalizedUrl` is idempotent — applying it twice yields the
same result as applying it once — and it is the identity on any URL string
containing no `/regions/{two-lowercase-letters}/` segment.  (Both
variants.) -/
theorem C10_localized_url_idempotent :
    (∀ (lang url : Str), lang.length = 2 → (∀ c ∈ lang, isLowerAZ c) →
        V31.getLocalizedUrl lang (V31.getLocalizedUrl lang url) = V31.getLocalizedUrl lang url
        ∧ V40.getLocalizedUrl lang (V40.getLocalizedUrl lang url) = V40.getLocalizedUrl lang url)
    ∧ (∀ (lang url : Str), scanFirst regionHere url = none →
        V31.getLocalizedUrl lang url = url ∧ V40.getLocalizedUrl lang url = url) := by
  have hident : ∀ (lang url : Str), scanFirst regionHere url = none →
      V31.getLocalizedUrl lang url = url := by
    intro lang url h
    unfold V31.getLocalizedUrl
    rw [h]
  have hidem : ∀ (lang url : Str), lang.length = 2 → (∀ c ∈ lang, isLowerAZ c) →
      V31.getLocalizedUrl lang (V31.getLocalizedUrl lang url) = V31.getLocalizedUrl lang url := by
    intro lang url h2 hlow
    cases hm : scanFirst regionHere url with
    | none => rw [hident lang url hm, hident lang url hm]
    | some p =>
      cases p with
      | mk i code =>
        have hd := isLower_no_dollar hlow
        have hr := getLocalizedUrl_eq hm hd
        have hfirst := replaceRegion_first hm h2 hlow
        have hlen := region_match_len hm
        have htk : (url.take i).length = i := by rw [List.length_take]; omega
        have h9 : ("/regions/".data).length = 9 := by decide
        have h1 : ("/".data).length = 1 := by decide
        have hres := getLocalizedUrl_eq hfirst hd
        rw [hr, hres]
        have hA : (url.take i ++ ("/regions/".data ++ lang ++ "/".data)
            ++ url.drop (i + 12)).take i = url.take i := by
          rw [List.append_assoc]
          rw [List.take_append_of_le_length (le_of_eq htk.symm)]
          rw [List.take_take]
          simp
        have hB : (url.take i ++ ("/regions/".data ++ lang ++ "/".data)
            ++ url.drop (i + 12)).drop (i + 12) = url.drop (i + 12) := by
          apply List.drop_left'
          rw [List.length_append, htk, List.length_append, List.length_append, h9, h1, h2]
        rw [hA, hB]
  refine ⟨?_, ?_⟩
  · intro lang url h2 hlow
    refine ⟨hidem lang url h2 hlow, ?_⟩
    rw [v40_localize_eq, v40_localize_eq]
    exact hidem lang url h2 hlow
  · intro lang url h
    exact ⟨hident lang url h, by rw [v40_localize_eq]; exact hident lang url h⟩

/-- C10 witness: idempotence and identity applied at concrete inputs. -/
theorem C10_localized_url_idempotent_witness :
    V31.getLocalizedUrl ("pt").data
        (V31.getLocalizedUrl ("pt").data ("/regions/en/reviews/kettle.html").data)
      = V31.getLocalizedUrl ("pt").data ("/regions/en/reviews/kettle.html").data
    ∧ V31.getLocalizedUrl ("pt").data ("/no/region/here.html").data
      = ("/no/region/here.html").data :=
  ⟨(C10_localized_url_idempotent.1 ("pt").data ("/regions/en/reviews/kettle.html").data
      (by decide) (by decide)).1,
   (C10_localized_url_idempotent.2 ("pt").data ("/no/region/here.html").data (by decide)).1⟩

/-- C3: at widget construction the active language is determined once, in
priority order: the two-letter code captured from a page path matching
`/regions/{2-letter-code}/` if present; otherwise the stored
`preferredLanguage` preference if present; otherwise `"en"`.  In
particular, `/regions/fr/reviews/x.html` with stored preference `de`
resolves to `fr`; a non-regional path with stored preference `de` resolves
to `de`; neither present resolves to `en`.  (Both variants.) -/
theorem C3_language_detection_priority :
    (∀ (path : Str) (stored : Option Str) (i : Nat) (code : Str),
        scanFirst regionHere path = some (i, code) →
        V31.detectLanguage path stored = code ∧ V40.detectLanguage path stored = code)
    ∧ (∀ (path : Str) (pref : Str), scanFirst regionHere path = none → pref ≠ [] →
        V31.detectLanguage path (some pref) = pref ∧ V40.detectLanguage path (some pref) = pref)
    ∧ (∀ (path : Str), scanFirst regionHere path = none →
        V31.detectLanguage path none = "en".data ∧ V40.detectLanguage path none = "en".data)
    ∧ V31.detectLanguage ("/regions/fr/reviews/x.html").data (some ("de").data) = ("fr").data
    ∧ V40.detectLanguage ("/regions/fr/reviews/x.html").data (some ("de").data) = ("fr").data
    ∧ V31.detectLanguage ("/about.html").data (some ("de").data) = ("de").data
    ∧ V40.detectLanguage ("/about.html").data (some ("de").data) = ("de").data
    ∧ V31.detectLanguage ("/about.html").data none = ("en").data
    ∧ V40.detectLanguage ("/about.html").data none = ("en").data := by
  refine ⟨?_, ?_, ?_, by decide, by decide, by decide, by decide, by decide, by decide⟩
  · intro path stored i code h
    constructor
    · unfold V31.detectLanguage; rw [h]
    · unfold V40.detectLanguage; rw [h]
  · intro path pref h hne
    constructor
    · unfold V31.detectLanguage; rw [h]; simp [hne]
    · unfold V40.detectLanguage; rw [h]; simp [hne]
  · intro path h
    constructor
    · unfold V31.detectLanguage; rw [h]
    · unfold V40.detectLanguage; rw [h]

/-- C3 witness: the theorem applied at concrete inputs, discharging each
hypothesis there. -/
theorem C3_language_detection_priority_witness :
    V31.detectLanguage ("/regions/de/reviews/q.html").data none = ("de").data
    ∧ V31.detectLanguage ("/privacy-policy.html").data (some ("pt").data) = ("pt").data
    ∧ V40.detectLanguage ("/privacy-policy.html").data none = ("en").data :=
  ⟨(C3_language_detection_priority.1 ("/regions/de/reviews/q.html").data none 0
      ("de").data (by decide)).1,
   (C3_language_detection_priority.2.1 ("/privacy-policy.html").data ("pt").data
      (by decide) (by decide)).1,
   (C3_language_detection_priority.2.2.1 ("/privacy-policy.html").data (by decide)).2⟩

/-- C9: the v3.1 and v4.0 widget variants are functionally equivalent over
the shared data contract: for every page path, stored language preference,
language code and URL, the two variants compute the same active language,
the same localized review URLs, and the same language-switch outcome (same
persisted preference and same navigation target or in-place re-render). -/
theorem C9_variant_equivalence :
    (∀ (path : Str) (stored : Option Str),
        V31.detectLanguage path stored = V40.detectLanguage path stored)
    ∧ (∀ (lang url : Str), V31.getLocalizedUrl lang url = V40.getLocalizedUrl lang url)
    ∧ (∀ (path lang : Str), V31.switchLanguage path lang = V40.switchLanguage path lang) :=
  ⟨fun _ _ => rfl, fun _ _ => rfl, fun _ _ => rfl⟩

/-- C6: whenever the menu-configuration fetch fails or its body cannot be
parsed as JSON (the rejected promise chain), the widget renders into its
container exactly the fallback links — Home and About, plus Privacy Policy
in the v3.1 theme only — with no dropdown elements and no language
switcher, and the failure is handled by the catch handler rather than
surfaced as an error. -/
theorem C6_fallback_menu :
    (∀ lang, V31.handleLoad lang .failure = V31.buildFallbackHtml)
    ∧ (∀ lang, V40.handleLoad lang .failure = V40.buildFallbackHtml)
    ∧ allHrefs V31.buildFallbackHtml = [("/").data, ("/about.html").data,
        ("/privacy-policy.html").data]
    ∧ allHrefs V40.buildFallbackHtml = [("/").data, ("/about.html").data]
    ∧ containsSub ("menu-submenu").data V31.buildFallbackHtml = false
    ∧ containsSub ("menu-item--with-children").data V31.buildFallbackHtml = false
    ∧ containsSub ("data-lang").data V31.buildFallbackHtml = false
    ∧ containsSub ("menu-dropdown").data V40.buildFallbackHtml = false
    ∧ containsSub ("group").data V40.buildFallbackHtml = false
    ∧ containsSub ("data-lang").data V40.buildFallbackHtml = false := by
  refine ⟨fun _ => rfl, fun _ => rfl, ?_, ?_, ?_, ?_, ?_, ?_, ?_, ?_⟩ <;> decide

set_option maxHeartbeats 2000000 in
theorem C2_run_twice_witness :
    matchIM c5World.indexContent = some (19, 71)
    ∧ firstIdx smStart c5World.sitemapContent = some 149
    ∧ ((runSync c2World2).exitCode = 0
      ∧ (runSync c2World2).indexWritten = false
      ∧ (runSync c2World2).sitemapWritten = false
      ∧ (runSync c2World2).indexOut = (runSync c5World).indexOut
      ∧ (runSync c2World2).sitemapOut = (runSync c5World).sitemapOut
      ∧ ("No changes needed").data ∈ (runSync c2World2).stdout) := by
  refine ⟨by decide, by decide, ?_⟩
  have h := C2_run_twice c5World 19 71 149 199 (by decide) (by decide) (by decide)
    (by decide) (by decide) (by decide) (by decide) (by decide) (by decide)
    (by decide)
  have h3 := h.2 c2World2 rfl rfl rfl rfl rfl
  exact ⟨h3.1, h3.2.1, h3.2.2.1, h3.2.2.2.1, h3.2.2.2.2.1, h3.2.2.2.2.2.2.2⟩

set_option maxHeartbeats 2000000 in
/-- C2 counterexample: with a review page whose title is the very comment
that terminates the listing data block, the first run succeeds (both marker
pairs are present), yet the second run's lazy block match stops at the
title's copy of the terminator, so the second run rewrites — and writes —
the listing page again instead of reporting it up to date. -/
theorem C2_counterexample :
    (runSync evilWorld).exitCode = 0
    ∧ (runSync evilWorld2).exitCode = 0
    ∧ (runSync evilWorld2).indexWritten = true
    ∧ (runSync evilWorld2).indexOut ≠ (runSync evilWorld).indexOut := by
  refine ⟨by decide, by decide, by decide, by decide⟩

end SmartBuy
